import Mathlib

/-!
Verification development for the AIVA message-routing core.

This file shallowly embeds the routing, intent-extraction, history and
command-dispatch logic of `src/modules/router.py` (plus the pieces of
`src/modules/tools.py`, `src/modules/ai.py` and `src/framework/constants.py`
that it uses) and proves the specification claims about it.

Modelling conventions:
* Python strings are Lean `String`s; the relevant `str` methods
  (`strip`, `replace`, `startswith`, `endswith`, `split`, `lower`) are
  re-implemented over `List Char` below, matching CPython semantics on the
  character set the program manipulates.
* `json.loads` is embedded as a recursive-descent parser `jloads` over the
  JSON fragment the program exchanges (objects, arrays, strings with the
  standard single-character escapes, integer numbers, `true`/`false`/`null`).
  JSON numbers are modelled as integers and `\uXXXX` escapes are omitted:
  no claim depends on fractional or non-ASCII payloads.
* `json.dumps` (default separators, and the `indent=2` form) is embedded as
  `dumpsV` / `dumpsIndV`.
* Backend generation (`self.ai.generate`) and the tool bodies reached
  through `ToolManager.execute` perform I/O; they are passed to the router
  as oracles (`GenOracle`, `ToolOracle`).  Everything dispatching around
  them is embedded from the source.
-/

namespace AIVA

/-! ## Python-level character and string helpers -/

/-- Whitespace stripped by Python `str.strip()` (ASCII range). -/
def pyWsChar (c : Char) : Bool :=
  c = ' ' || c = '\t' || c = '\n' || c = '\r' || c = Char.ofNat 11 || c = Char.ofNat 12

/-- Whitespace skipped by the `json` module between tokens. -/
def jsonWsChar (c : Char) : Bool :=
  c = ' ' || c = '\t' || c = '\n' || c = '\r'

def pyStripL (l : List Char) : List Char :=
  ((l.dropWhile pyWsChar).reverse.dropWhile pyWsChar).reverse

/-- Python `str.strip()`. -/
def pyStrip (s : String) : String := String.mk (pyStripL s.toList)

/-- Python `str.startswith`. -/
def pyStartsWith (s pre : String) : Bool := pre.toList.isPrefixOf s.toList

/-- Python `str.endswith`. -/
def pyEndsWith (s suf : String) : Bool := suf.toList.isSuffixOf s.toList

/-- Python `str.lower()` (ASCII). -/
def pyLower (s : String) : String := String.mk (s.toList.map Char.toLower)

/-- Fuelled worker for `replaceL`; the fuel only needs to cover the input
length (each step consumes at least one character). -/
def replaceLF : Nat → List Char → List Char → List Char
  | _, [], _ => []
  | 0, s, _ => s
  | Nat.succ f, c :: rest, pat =>
    if pat.isPrefixOf (c :: rest) then
      replaceLF f ((c :: rest).drop pat.length) pat
    else
      c :: replaceLF f rest pat

/-- Python `str.replace(pat, '')` for a non-empty `pat`: remove the leftmost
occurrences, non-overlapping, scanning left to right. -/
def replaceL (s pat : List Char) : List Char :=
  match pat with
  | [] => s
  | _ :: _ => replaceLF s.length s pat

/-- Python `s.replace(pat, '')`. -/
def pyReplace (s pat : String) : String := String.mk (replaceL s.toList pat.toList)

def splitWsAux : Nat → List Char → List (List Char)
  | 0, _ => []
  | Nat.succ f, l =>
    match l.dropWhile pyWsChar with
    | [] => []
    | c :: rest =>
      (c :: rest.takeWhile (fun x => !pyWsChar x)) ::
        splitWsAux f (rest.dropWhile (fun x => !pyWsChar x))

/-- Python `str.split()` with no arguments: split on whitespace runs. -/
def pySplitWs (s : String) : List String :=
  (splitWsAux s.toList.length s.toList).map String.mk

/-- Python `str.split(maxsplit=1)`: first whitespace-delimited token, then
the remainder with its leading whitespace removed (trailing kept). -/
def pySplitMax1 (s : String) : List String :=
  match s.toList.dropWhile pyWsChar with
  | [] => []
  | c :: rest =>
    let tok := c :: rest.takeWhile (fun x => !pyWsChar x)
    let rem := (rest.dropWhile (fun x => !pyWsChar x)).dropWhile pyWsChar
    if rem = [] then [String.mk tok] else [String.mk tok, String.mk rem]

/-! ## JSON values -/

inductive JVal where
  | jnull : JVal
  | jbool : Bool → JVal
  | jnum : Int → JVal
  | jstr : String → JVal
  | jarr : List JVal → JVal
  | jobj : List (String × JVal) → JVal

/-- Python `dict` insertion: a repeated key overwrites the value in place. -/
def insertKey : List (String × JVal) → String → JVal → List (String × JVal)
  | [], k, v => [(k, v)]
  | (k0, v0) :: rest, k, v =>
    if k0 = k then (k0, v) :: rest else (k0, v0) :: insertKey rest k v

/-- `key in dict`. -/
def hasKey (fs : List (String × JVal)) (k : String) : Bool :=
  fs.any (fun p => p.1 = k)

/-- `dict.get(key)` (first binding; `insertKey` keeps keys unique). -/
def jGet (fs : List (String × JVal)) (k : String) : Option JVal :=
  (fs.find? (fun p => p.1 = k)).map (fun p => p.2)

/-- Python truthiness of a decoded JSON value. -/
def pyTruthy : JVal → Bool
  | .jnull => false
  | .jbool b => b
  | .jnum n => n != 0
  | .jstr s => s ≠ ""
  | .jarr xs => !xs.isEmpty
  | .jobj fs => !fs.isEmpty

/-! ## `json.loads` (recursive-descent, fuelled) -/

def skipJWs (l : List Char) : List Char := l.dropWhile jsonWsChar

def isDigitCh (c : Char) : Bool := '0' ≤ c && c ≤ '9'

def digitsToNat (l : List Char) : Nat :=
  l.foldl (fun a c => a * 10 + (c.toNat - 48)) 0

def escChar (e : Char) : Option Char :=
  if e = '"' then some '"'
  else if e = '\\' then some '\\'
  else if e = '/' then some '/'
  else if e = 'n' then some '\n'
  else if e = 't' then some '\t'
  else if e = 'r' then some '\r'
  else if e = 'b' then some (Char.ofNat 8)
  else if e = 'f' then some (Char.ofNat 12)
  else none

/-- Body of a JSON string literal, after the opening quote.  Raw control
characters are rejected, as by Python's strict decoder; braces and any other
printable characters are accepted verbatim. -/
def parseStrBody : List Char → Option (List Char × List Char)
  | [] => none
  | [c] => if c = '"' then some ([], []) else none
  | c :: e :: rest2 =>
    if c = '"' then some ([], e :: rest2)
    else if c = '\\' then
      match escChar e, parseStrBody rest2 with
      | some ch, some p => some (ch :: p.1, p.2)
      | _, _ => none
    else if c.toNat < 32 then none
    else
      match parseStrBody (e :: rest2) with
      | some p => some (c :: p.1, p.2)
      | none => none

mutual

def parseV : Nat → List Char → Option (JVal × List Char)
  | 0, _ => none
  | Nat.succ f, l =>
    match skipJWs l with
    | [] => none
    | c :: rest =>
      if c = '{' then
        match skipJWs rest with
        | '}' :: r2 => some (JVal.jobj [], r2)
        | r2 => parseObjItems f r2 []
      else if c = '[' then
        match skipJWs rest with
        | ']' :: r2 => some (JVal.jarr [], r2)
        | r2 => parseArrItems f r2 []
      else if c = '"' then
        match parseStrBody rest with
        | some p => some (JVal.jstr (String.mk p.1), p.2)
        | none => none
      else if c = '-' then
        match rest.takeWhile isDigitCh with
        | [] => none
        | ds => some (JVal.jnum (-(digitsToNat ds : Int)), rest.dropWhile isDigitCh)
      else if isDigitCh c then
        some (JVal.jnum (digitsToNat (c :: rest.takeWhile isDigitCh)),
              rest.dropWhile isDigitCh)
      else if c = 't' then
        if rest.take 3 = ['r', 'u', 'e'] then some (JVal.jbool true, rest.drop 3) else none
      else if c = 'f' then
        if rest.take 4 = ['a', 'l', 's', 'e'] then some (JVal.jbool false, rest.drop 4) else none
      else if c = 'n' then
        if rest.take 3 = ['u', 'l', 'l'] then some (JVal.jnull, rest.drop 3) else none
      else none

def parseObjItems : Nat → List Char → List (String × JVal) → Option (JVal × List Char)
  | 0, _, _ => none
  | Nat.succ f, l, acc =>
    match skipJWs l with
    | '"' :: rest =>
      match parseStrBody rest with
      | none => none
      | some kp =>
        match skipJWs kp.2 with
        | ':' :: r2 =>
          match parseV f r2 with
          | none => none
          | some vp =>
            let acc2 := insertKey acc (String.mk kp.1) vp.1
            match skipJWs vp.2 with
            | ',' :: r4 => parseObjItems f r4 acc2
            | '}' :: r4 => some (JVal.jobj acc2, r4)
            | _ => none
        | _ => none
    | _ => none

def parseArrItems : Nat → List Char → List JVal → Option (JVal × List Char)
  | 0, _, _ => none
  | Nat.succ f, l, acc =>
    match parseV f l with
    | none => none
    | some vp =>
      match skipJWs vp.2 with
      | ',' :: r2 => parseArrItems f r2 (acc ++ [vp.1])
      | ']' :: r2 => some (JVal.jarr (acc ++ [vp.1]), r2)
      | _ => none

end

/-- `json.loads`: the whole input must be one value plus whitespace. -/
def jloads (s : String) : Option JVal :=
  match parseV (s.toList.length + 2) s.toList with
  | some vp => if skipJWs vp.2 = [] then some vp.1 else none
  | none => none

/-! ## `json.dumps` -/

def hexDigit (n : Nat) : Char :=
  if n < 10 then Char.ofNat (48 + n) else Char.ofNat (87 + n)

def escapeJsonChar (c : Char) : List Char :=
  if c = '"' then ['\\', '"']
  else if c = '\\' then ['\\', '\\']
  else if c = '\n' then ['\\', 'n']
  else if c = '\t' then ['\\', 't']
  else if c = '\r' then ['\\', 'r']
  else if c = Char.ofNat 8 then ['\\', 'b']
  else if c = Char.ofNat 12 then ['\\', 'f']
  else if c.toNat < 32 then
    ['\\', 'u', '0', '0', hexDigit (c.toNat / 16), hexDigit (c.toNat % 16)]
  else [c]

def escJString (s : String) : String :=
  String.mk (s.toList.foldr (fun c acc => escapeJsonChar c ++ acc) [])

mutual

/-- `json.dumps(v)` with the default separators `", "` and `": "`. -/
def dumpsV : JVal → String
  | .jnull => "null"
  | .jbool true => "true"
  | .jbool false => "false"
  | .jnum n => toString n
  | .jstr s => "\"" ++ escJString s ++ "\""
  | .jarr xs => "[" ++ dumpsArr xs ++ "]"
  | .jobj fs => "\x7b" ++ dumpsObj fs ++ "\x7d"

def dumpsArr : List JVal → String
  | [] => ""
  | [x] => dumpsV x
  | x :: y :: xs => dumpsV x ++ ", " ++ dumpsArr (y :: xs)

def dumpsObj : List (String × JVal) → String
  | [] => ""
  | [kv] => "\"" ++ escJString kv.1 ++ "\": " ++ dumpsV kv.2
  | kv :: kw :: fs => "\"" ++ escJString kv.1 ++ "\": " ++ dumpsV kv.2 ++ ", " ++ dumpsObj (kw :: fs)

end

def indentOf (lvl : Nat) : String := String.mk (List.replicate (2 * lvl) ' ')

mutual

/-- `json.dumps(v, indent=2)` at nesting level `lvl`. -/
def dumpsIndV : Nat → JVal → String
  | _, .jnull => "null"
  | _, .jbool true => "true"
  | _, .jbool false => "false"
  | _, .jnum n => toString n
  | _, .jstr s => "\"" ++ escJString s ++ "\""
  | _, .jarr [] => "[]"
  | lvl, .jarr (x :: xs) => "[\n" ++ dumpsIndArr (lvl + 1) (x :: xs) ++ "\n" ++ indentOf lvl ++ "]"
  | _, .jobj [] => "\x7b\x7d"
  | lvl, .jobj (kv :: fs) =>
      "\x7b\n" ++ dumpsIndObj (lvl + 1) (kv :: fs) ++ "\n" ++ indentOf lvl ++ "\x7d"

def dumpsIndArr : Nat → List JVal → String
  | _, [] => ""
  | lvl, [x] => indentOf lvl ++ dumpsIndV lvl x
  | lvl, x :: y :: xs => indentOf lvl ++ dumpsIndV lvl x ++ ",\n" ++ dumpsIndArr lvl (y :: xs)

def dumpsIndObj : Nat → List (String × JVal) → String
  | _, [] => ""
  | lvl, [kv] => indentOf lvl ++ "\"" ++ escJString kv.1 ++ "\": " ++ dumpsIndV lvl kv.2
  | lvl, kv :: kw :: fs =>
      indentOf lvl ++ "\"" ++ escJString kv.1 ++ "\": " ++ dumpsIndV lvl kv.2 ++ ",\n" ++
        dumpsIndObj lvl (kw :: fs)

end

/-- Python `str(v)` for the scalar results a tool may return.  (The
container cases are unreachable through the router, which serializes
containers with `dumpsIndV`; they are given a JSON rendering for totality.) -/
def pyStr : JVal → String
  | .jstr s => s
  | .jnum n => toString n
  | .jbool true => "True"
  | .jbool false => "False"
  | .jnull => "None"
  | .jarr xs => dumpsV (.jarr xs)
  | .jobj fs => dumpsV (.jobj fs)

/-! ## Router data model (`src/modules/router.py`) -/

/-- `ResponseAction` (router.py lines 17-20). -/
inductive ResponseAction where
  | quit : ResponseAction
  | clear : ResponseAction
deriving DecidableEq

/-- One history entry: `{'role': ..., 'content': ...}`. -/
structure Turn where
  role : String
  content : String
deriving DecidableEq

/-- `ProcessResult` (router.py lines 23-28); `TypedDict(total=False)` fields
absent from a returned dict are `none`. -/
structure ProcessResult where
  success : Bool
  response : Option String := none
  error : Option String := none
  action : Option ResponseAction := none
deriving DecidableEq

/-- The slice of `AIManager` state the router reads and writes
(`src/modules/ai.py`): the registered provider names, in registration
order, and the current provider. -/
structure AIState where
  providers : List String
  current : Option String
deriving DecidableEq

/-- `self.history`: per-session turn lists, keyed by session id.  A key that
was never touched maps to `none` (Python: absent from the dict). -/
def Store : Type := String → Option (List Turn)

def Store.set (st : Store) (uid : String) (h : List Turn) : Store :=
  fun k => if k = uid then some h else st k

/-- The stored history of a session, empty if the session is unseen. -/
def Store.hist (st : Store) (uid : String) : List Turn := (st uid).getD []

structure RouterState where
  store : Store
  ai : AIState

/-- One `Router.process` call's outcome: the returned result, the router
state afterwards, and (instrumentation) the prompts passed to
`self.ai.generate`, in call order. -/
structure StepOut where
  result : ProcessResult
  state : RouterState
  genCalls : List String

/-- `self.ai.generate(prompt, history=...)`: backend I/O, passed in as an
oracle.  `Except.error` is the oracle raising; the message is what `str(e)`
would render. -/
def GenOracle : Type := String → List Turn → Except String String

/-- The I/O bodies of the registered tools, passed in as an oracle keyed by
tool name; `Except.error` is the tool body raising. -/
def ToolOracle : Type := String → List (String × JVal) → Except String JVal

/-- Message constants used by the router (`src/framework/constants.py`). -/
def MSG_EMPTY_MSG : String := "Empty message"
def MSG_INVALID_CMD : String := "Unknown command"
def MSG_GEN_FAILED : String := "Generation failed"
def MSG_CLEARED : String := "History cleared"
def MSG_AI_NOT_FOUND : String := "AI provider not found"
def MSG_HELP : String :=
  "  /clear - Clear conversation\n  /quit - Exit application\n  /help - Show this help\n  /ai <provider> - Switch AI provider\n  /tools - List available tools\n  /tool <name> - Show tool schema"

def MAX_HISTORY : Nat := 20

/-- `Router._manage_history` (lines 47-50): trim the list to the last
`MAX_HISTORY` entries when it exceeds the bound. -/
def manageHistory (h : List Turn) : List Turn :=
  if MAX_HISTORY < h.length then h.drop (h.length - MAX_HISTORY) else h

/-! ## Intent extraction (`Router._extract_json_from_text`, lines 52-76)

The source tracks `brace_count` and `start_pos` and, whenever the count
returns to zero with a start recorded, decodes `text[start_pos:i+1]`.
Here `acc` plays the role of `start_pos`: `none` is `start_pos == -1`, and
`some saved` holds the characters of `text[start_pos:i]` in reverse, so the
candidate slice at a closing brace is `(c :: saved).reverse`. -/

def pushAcc (acc : Option (List Char)) (c : Char) : Option (List Char) :=
  acc.map (fun l => c :: l)

def scanJson : List Char → Int → Option (List Char) → Option JVal
  | [], _, _ => none
  | c :: rest, count, acc =>
    if c = '{' then
      scanJson rest (count + 1) (if count = 0 then some [c] else pushAcc acc c)
    else if c = '}' then
      if count - 1 = 0 then
        match acc with
        | some saved =>
          match jloads (String.mk (c :: saved).reverse) with
          | some (JVal.jobj fs) =>
            if hasKey fs "tool" then some (JVal.jobj fs)
            else scanJson rest (count - 1) none
          | _ => scanJson rest (count - 1) none
        | none => scanJson rest (count - 1) none
      else scanJson rest (count - 1) (pushAcc acc c)
    else scanJson rest count (pushAcc acc c)

def extractJsonFromText (text : String) : Option JVal :=
  scanJson text.toList 0 none

/-! ## `Router.process` (lines 78-161) -/

/-- Lines 95-100: if the stripped response is brace-delimited, try to decode
the whole response. -/
def pureParse (response : String) : Option JVal :=
  if pyStartsWith (pyStrip response) "\x7b" && pyEndsWith (pyStrip response) "\x7d" then
    jloads response
  else none

/-- Lines 94-104: the value of `tool_call` after the two detection steps.
A falsy decoded value (line 103 `if not tool_call`) falls through to the
in-text extractor. -/
def rawToolCall (response : String) : Option JVal :=
  match pureParse response with
  | some v => if pyTruthy v then some v else extractJsonFromText response
  | none => extractJsonFromText response

/-- Line 107 guard: `tool_call and isinstance(tool_call, dict) and "tool" in
tool_call`.  Yields the fields of the accepted request. -/
def detectToolCall (response : String) : Option (List (String × JVal)) :=
  match rawToolCall response with
  | some (JVal.jobj fs) =>
    if pyTruthy (JVal.jobj fs) && hasKey fs "tool" then some fs else none
  | _ => none

/-- Lines 120-125: the `text_response` left after removing the re-serialized
tool call from a mixed response (no removal when the stripped response is
itself brace-delimited). -/
def textResponseOf (response : String) (fs : List (String × JVal)) : String :=
  if pyStartsWith (pyStrip response) "\x7b" && pyEndsWith (pyStrip response) "\x7d" then
    response
  else
    pyStrip (pyReplace response (dumpsV (JVal.jobj fs)))

/-- Line 118: `json.dumps(result, indent=2)` for containers, `str(result)`
otherwise. -/
def toolResultStr : JVal → String
  | .jobj fs => dumpsIndV 0 (.jobj fs)
  | .jarr xs => dumpsIndV 0 (.jarr xs)
  | v => pyStr v

/-- Line 138 prompt for the summarization call. -/
def summaryPrompt (toolName : JVal) (trs : String) : String :=
  "The tool '" ++ pyStr toolName ++ "' returned: " ++ trs ++ "\nProvide a helpful summary."

/-- The tool names registered by `ToolManager.__init__`
(`src/modules/tools.py` lines 33-42). -/
def toolNames : List String :=
  ["bash", "read_file", "write_file", "read_csv", "write_csv",
   "list_dir", "gmail_list", "gmail_send"]

/-- `ToolManager.execute` (tools.py lines 44-59): unknown names raise a
plain `Exception`; known names run the tool body (oracle).  A non-string
name is never a key of the registry. -/
def toolsExecute (io : ToolOracle) (name : JVal) (args : List (String × JVal)) :
    Except String JVal :=
  match name with
  | .jstr s => if toolNames.contains s then io s args
               else .error ("Tool " ++ s ++ " not available")
  | v => .error ("Tool " ++ pyStr v ++ " not available")

/-- Lines 107-150, after a tool call was detected.  The `except
ToolExecutionError` arm (line 146) is not modelled as reachable: no code
anywhere defines or raises `ToolExecutionError` (see `claim_C3`), so every
failure lands in the generic `except Exception` arm (lines 148-150). -/
def toolBranch (gen : GenOracle) (io : ToolOracle) (ai : AIState) (store0 : Store)
    (hist : List Turn) (text uid response : String) (fs : List (String × JVal)) : StepOut :=
  let toolName := (jGet fs "tool").getD JVal.jnull
  if pyTruthy toolName = false then
    ⟨⟨false, none, some "Invalid tool format: 'tool' is required", none⟩, ⟨store0, ai⟩, [text]⟩
  else
    match (jGet fs "args").getD (JVal.jobj []) with
    | JVal.jobj argFs =>
      (match toolsExecute io toolName argFs with
       | .error e =>
         ⟨⟨false, none, some ("Error processing tool call: " ++ e), none⟩, ⟨store0, ai⟩, [text]⟩
       | .ok result =>
         let trs := toolResultStr result
         let tr := textResponseOf response fs
         let hist1 := hist ++
           [⟨"user", text⟩, ⟨"assistant", response⟩,
            ⟨"user", "Tool '" ++ pyStr toolName ++ "' result: " ++ trs⟩]
         if tr = "" then
           (match gen (summaryPrompt toolName trs) hist1 with
            | .error e =>
              ⟨⟨false, none, some ("Error processing tool call: " ++ e), none⟩,
               ⟨store0.set uid hist1, ai⟩, [text, summaryPrompt toolName trs]⟩
            | .ok fr =>
              ⟨⟨true, some fr, none, none⟩,
               ⟨store0.set uid (manageHistory (hist1 ++ [⟨"assistant", fr⟩])), ai⟩,
               [text, summaryPrompt toolName trs]⟩)
         else
           ⟨⟨true, some (tr ++ "\n\nTool result: " ++ trs), none, none⟩,
            ⟨store0.set uid (manageHistory (hist1 ++
               [⟨"assistant", tr ++ "\n\nTool result: " ++ trs⟩])), ai⟩, [text]⟩)
    | _ =>
      -- `self.tools.execute(tool_name, **tool_args)` with a non-mapping
      -- `args` raises TypeError before the call, caught by lines 148-150.
      ⟨⟨false, none,
        some "Error processing tool call: argument after ** must be a mapping", none⟩,
       ⟨store0, ai⟩, [text]⟩

/-- Lines 152-158: no tool call found. -/
def plainReply (ai : AIState) (store0 : Store) (hist : List Turn)
    (text uid response : String) : StepOut :=
  ⟨⟨true, some response, none, none⟩,
   ⟨store0.set uid (manageHistory (hist ++ [⟨"user", text⟩, ⟨"assistant", response⟩])), ai⟩,
   [text]⟩

/-- Lines 87-88: create the session history list on first touch. -/
def creadStore (st : Store) (uid : String) : Store :=
  if (st uid).isNone then Store.set st uid [] else st

/-- The conversational path (lines 87-161). -/
def conv (gen : GenOracle) (io : ToolOracle) (rs : RouterState)
    (text uid : String) : StepOut :=
  let store0 := creadStore rs.store uid
  let hist := store0.hist uid
  match gen text hist with
  | .error _ =>
    ⟨⟨false, none, some MSG_GEN_FAILED, none⟩, ⟨store0, rs.ai⟩, [text]⟩
  | .ok response =>
    match detectToolCall response with
    | some fs => toolBranch gen io rs.ai store0 hist text uid response fs
    | none => plainReply rs.ai store0 hist text uid response

/-- `Router.cmd_ai` (lines 190-203). -/
def cmdAi (rs : RouterState) (args : List String) : StepOut :=
  match args with
  | [] =>
    let current := rs.ai.current
    let curStr := match current with | some c => c | none => "None"
    let providerList := String.intercalate ", "
      (rs.ai.providers.map (fun p => if some p = current then "[" ++ p ++ "]" else p))
    ⟨⟨true, some ("Current: " ++ curStr ++ "\nAvailable: " ++ providerList), none, none⟩,
     rs, []⟩
  | a :: _ =>
    -- `provider_name = args[0].lower()`; `AIManager.switch_provider`
    -- (ai.py lines 375-391) succeeds iff the name is registered.
    if rs.ai.providers.contains (pyLower a) then
      ⟨⟨true, some ("Switched to " ++ pyLower a), none, none⟩,
       ⟨rs.store, ⟨rs.ai.providers, some (pyLower a)⟩⟩, []⟩
    else
      ⟨⟨false, none,
        some (MSG_AI_NOT_FOUND ++ ". Available: " ++ String.intercalate ", " rs.ai.providers),
        none⟩, rs, []⟩

/-- `Router.handle_command` (lines 163-208).  `cmd_quit` and `cmd_help` are
declared `@staticmethod` yet take `(self, args, uid)`; `self.cmd_quit` is
therefore the unbound 3-parameter function, and `handler(args, uid)` raises
`TypeError`, which the `except` of lines 173-175 converts into a failed
result. -/
def cmdOf (cmdText : String) : String :=
  match pySplitMax1 cmdText with | [] => "" | c :: _ => pyLower c

def argsOf (cmdText : String) : List String :=
  match pySplitMax1 cmdText with | _ :: rest :: _ => pySplitWs rest | _ => []

def handleCommand (rs : RouterState) (cmdText uid : String) : StepOut :=
  if cmdOf cmdText = "quit" then
    ⟨⟨false, none,
      some "Command failed: Router.cmd_quit() missing 1 required positional argument: 'uid'",
      none⟩, rs, []⟩
  else if cmdOf cmdText = "clear" then
    ⟨⟨true, some MSG_CLEARED, none, none⟩,
     ⟨match rs.store uid with
       | some _ => rs.store.set uid []
       | none => rs.store, rs.ai⟩, []⟩
  else if cmdOf cmdText = "ai" then cmdAi rs (argsOf cmdText)
  else if cmdOf cmdText = "help" then
    ⟨⟨false, none,
      some "Command failed: Router.cmd_help() missing 1 required positional argument: 'uid'",
      none⟩, rs, []⟩
  else
    ⟨⟨false, none, some MSG_INVALID_CMD, none⟩, rs, []⟩

/-- `Router.process` (lines 78-161). -/
def process (gen : GenOracle) (io : ToolOracle) (rs : RouterState)
    (text0 uid : String) : StepOut :=
  let text := pyStrip text0
  if text = "" then
    ⟨⟨false, none, some MSG_EMPTY_MSG, none⟩, rs, []⟩
  else if pyStartsWith text "/" then
    handleCommand rs (text.drop 1) uid
  else
    conv gen io rs text uid

/-! ## The `modules.tools` namespace and the router's import (claim C3) -/

/-- The module-level names bound in `src/modules/tools.py`: its imports
(lines 8-17) and the single class it defines (line 20). -/
def toolsModuleNames : List String :=
  ["subprocess", "os", "csv", "base64", "Request", "Credentials", "build",
   "HttpError", "MIMEText", "InstalledAppFlow", "ToolManager"]

/-- router.py line 12: `from modules.tools import ToolManager, ToolExecutionError`. -/
def routerFromToolsImports : List String := ["ToolManager", "ToolExecutionError"]

/-- A `from module import names` statement succeeds iff every requested name
is bound in the module. -/
def routerImportOk : Bool :=
  routerFromToolsImports.all (fun n => toolsModuleNames.contains n)

/-! ## `ToolManager.run_bash` (tools.py lines 62-72) and claim C8 -/

/-- The keyword arguments `run_bash` passes to `subprocess.run`. -/
structure SubprocessCall where
  cmd : String
  shell : Bool
  captureOutput : Bool
  text : Bool
  timeout : Option Nat
deriving DecidableEq

/-- Line 71: `subprocess.run(cmd, shell=True, capture_output=True,
text=True)` — no `timeout` keyword is passed. -/
def runBashCall (cmd : String) : SubprocessCall :=
  ⟨cmd, true, true, true, none⟩

/-- What the spawned command does: how long it runs (seconds) and what it
leaves behind. -/
structure ProcBehavior where
  duration : Nat
  returncode : Int
  stdout : String
  stderr : String

/-- Outcome of `subprocess.run`: with a timeout set, a command running
longer raises `TimeoutExpired` at the limit; with `timeout=None` the call
blocks for the command's full duration. -/
inductive RunOutcome where
  | completed : Int → String → String → Nat → RunOutcome
  | timeoutExpired : Nat → RunOutcome
deriving DecidableEq

def subprocessRun (call : SubprocessCall) (beh : ProcBehavior) : RunOutcome :=
  match call.timeout with
  | some lim => if lim < beh.duration then .timeoutExpired lim
                else .completed beh.returncode beh.stdout beh.stderr beh.duration
  | none => .completed beh.returncode beh.stdout beh.stderr beh.duration

/-- `run_bash` (lines 62-72): run the command, then return stripped stdout
on success, stripped stderr otherwise. -/
def runBash (cmd : String) (beh : ProcBehavior) : RunOutcome × String :=
  match subprocessRun (runBashCall cmd) beh with
  | .completed rc out err el =>
    (.completed rc out err el, if rc = 0 then pyStrip out else pyStrip err)
  | .timeoutExpired lim => (.timeoutExpired lim, "")

/-! ## Auxiliary notions used in claim statements -/

/-- The last `n` entries of a list (all of it when it is shorter). -/
def lastN {α : Type} (n : Nat) (l : List α) : List α := l.drop (l.length - n)

/-- Contribution of one character to the extractor's brace counter. -/
def pdelta (c : Char) : Int :=
  if c = '{' then 1 else if c = '}' then -1 else 0

/-- The extractor's brace counter over a character sequence. -/
def pcount : List Char → Int
  | [] => 0
  | c :: r => pdelta c + pcount r

/-- No brace characters at all. -/
def braceFree (l : List Char) : Bool := l.all (fun c => !(c = '{' || c = '}'))

/-- A single balanced brace group: starts at `'{'`, the counter stays
positive strictly inside, and returns to zero exactly at the final `'}'`. -/
def balancedGroup (l : List Char) : Prop :=
  l.head? = some '{' ∧ l.getLast? = some '}' ∧ pcount l = 0 ∧
    ∀ k, k < l.length → 0 < k → 0 < pcount (l.take k)

instance (l : List Char) : Decidable (balancedGroup l) := by
  unfold balancedGroup
  infer_instance

/-! ## Concrete inputs for counterexamples and witnesses -/

/-- A backend oracle returning fixed plain prose. -/
def genHello : GenOracle := fun _ _ => Except.ok "hello there"

/-- A backend oracle whose generation call always raises. -/
def genFail : GenOracle := fun _ _ => Except.error "boom"

/-- A tool oracle whose bodies all succeed with the string `"ok"`. -/
def ioOk : ToolOracle := fun _ _ => Except.ok (JVal.jstr "ok")

/-- A fresh router state: no session histories, providers `openai`/`ollama`
with `openai` current (the configuration of spec scenario C). -/
def rs0 : RouterState := ⟨fun _ => none, ⟨["openai", "ollama"], some "openai"⟩⟩

/-- A mixed response whose embedded request uses compact spacing, so that
`json.dumps(tool_call)` does not occur in it as a substring:
`Hi {"tool":"bash","args":{}}`. -/
def respC5 : String := "Hi \x7b\"tool\":\"bash\",\"args\":\x7b\x7d\x7d"

def genC5 : GenOracle := fun _ _ => Except.ok respC5

/-- A response that is exactly a brace-delimited object with an empty
`tool` field: `{"tool": ""}`. -/
def respC6 : String := "\x7b\"tool\": \"\"\x7d"

def genC6 : GenOracle := fun _ _ => Except.ok respC6

/-- A capability request whose string payload contains a closing brace:
`{"tool": "}"}`. -/
def reqC7 : JVal := JVal.jobj [("tool", JVal.jstr "\x7d")]

/-- `dumpsV reqC7`, i.e. the serialized form of `reqC7`. -/
def sC7 : String := "\x7b\"tool\": \"\x7d\"\x7d"

/-- A well-behaved serialized request for the amended C7 round-trip. -/
def sC7good : String := "\x7b\"tool\": \"read_file\", \"args\": \x7b\"path\": \"x\"\x7d\x7d"

/-- An unmatched closing brace, then an otherwise valid request whose
`args` object itself carries a `tool` field. -/
def c10text : String := "\x7d\x7b\"tool\": \"a\", \"args\": \x7b\"tool\": \"b\"\x7d\x7d"

/-- Flat request used for the amended C10: `{"tool": "a"}`. -/
def c10inner : List Char := "\"tool\": \"a\"".toList

/-- `Oops} ` followed by the flat request. -/
def c10resp : String := "Oops\x7d " ++ String.mk ('{' :: (c10inner ++ ['}']))

def genC10 : GenOracle := fun _ _ => Except.ok c10resp

/-! ## Whitespace and stripping lemmas -/

theorem mem_dropWhile_of_mem {α : Type} {p : α → Bool} {l : List α} {x : α}
    (hx : x ∈ l) (hnx : p x = false) : x ∈ l.dropWhile p := by
  induction l with
  | nil => cases hx
  | cons a t ih =>
    by_cases ha : p a = true
    · rw [List.dropWhile_cons_of_pos ha]
      rcases List.mem_cons.mp hx with h | h
      · subst h; rw [hnx] at ha; cases ha
      · exact ih h
    · rw [List.dropWhile_cons_of_neg ha]
      exact hx

theorem pyStripL_ne_nil {l : List Char} {x : Char}
    (hx : x ∈ l) (hnx : pyWsChar x = false) : pyStripL l ≠ [] := by
  unfold pyStripL
  have h1 : x ∈ l.dropWhile pyWsChar := mem_dropWhile_of_mem hx hnx
  have h2 : x ∈ (l.dropWhile pyWsChar).reverse := List.mem_reverse.mpr h1
  have h3 : x ∈ (l.dropWhile pyWsChar).reverse.dropWhile pyWsChar :=
    mem_dropWhile_of_mem h2 hnx
  intro h
  rw [List.reverse_eq_nil_iff] at h
  rw [h] at h3
  cases h3

theorem dropWhile_append_all {α : Type} {p : α → Bool} {w l : List α}
    (hw : ∀ c ∈ w, p c = true) : (w ++ l).dropWhile p = l.dropWhile p := by
  induction w with
  | nil => rfl
  | cons a t ih =>
    have ha : p a = true := hw a (List.mem_cons_self a t)
    rw [List.cons_append, List.dropWhile_cons_of_pos ha]
    exact ih (fun c hc => hw c (List.mem_cons_of_mem a hc))

theorem dropWhile_keeps {α : Type} {p : α → Bool} (u : List α) {d : α}
    (hd : p d = false) (w : List α) :
    ∃ u2, (u ++ d :: w).dropWhile p = u2 ++ d :: w := by
  induction u with
  | nil =>
    refine ⟨[], ?_⟩
    rw [List.nil_append, List.dropWhile_cons_of_neg (by simp [hd])]
  | cons a t ih =>
    by_cases ha : p a = true
    · rw [List.cons_append, List.dropWhile_cons_of_pos ha]
      exact ih
    · refine ⟨a :: t, ?_⟩
      rw [List.cons_append, List.dropWhile_cons_of_neg (by simp [ha])]

theorem exists_first_false {α : Type} {p : α → Bool} {l : List α} {x : α}
    (hx : x ∈ l) (hnx : p x = false) :
    ∃ w f t, l = w ++ f :: t ∧ (∀ c ∈ w, p c = true) ∧ p f = false := by
  induction l with
  | nil => cases hx
  | cons a t ih =>
    by_cases ha : p a = true
    · rcases List.mem_cons.mp hx with h | h
      · subst h; rw [hnx] at ha; cases ha
      · obtain ⟨w, f, t2, hl, hw, hf⟩ := ih h
        exact ⟨a :: w, f, t2, by rw [hl]; simp, by
          intro c hc
          rcases List.mem_cons.mp hc with h2 | h2
          · subst h2; exact ha
          · exact hw c h2, hf⟩
    · exact ⟨[], a, t, rfl, by simp, by simpa using ha⟩

/-- Stripping a list whose first non-whitespace character is `f` yields a
list starting with `f`. -/
theorem pyStripL_decomp_head {w : List Char} {f : Char} {t : List Char}
    (hw : ∀ c ∈ w, pyWsChar c = true) (hf : pyWsChar f = false) :
    ∃ m, pyStripL (w ++ f :: t) = f :: m := by
  unfold pyStripL
  rw [dropWhile_append_all hw, List.dropWhile_cons_of_neg (by simp [hf])]
  obtain ⟨u2, hu2⟩ := dropWhile_keeps t.reverse hf ([] : List Char)
  rw [List.reverse_cons]
  refine ⟨u2.reverse, ?_⟩
  have : t.reverse ++ [f] = t.reverse ++ f :: ([] : List Char) := rfl
  rw [this, hu2]
  simp

/-- Stripping a list whose last non-whitespace character is `d` yields a
list ending with `d`. -/
theorem pyStripL_decomp_last {u : List Char} {d : Char} {w : List Char}
    (hw : ∀ c ∈ w, pyWsChar c = true) (hd : pyWsChar d = false) :
    ∃ m, pyStripL (u ++ d :: w) = m ++ [d] := by
  unfold pyStripL
  obtain ⟨u2, hu2⟩ := dropWhile_keeps u hd w
  rw [hu2]
  have hrev : (u2 ++ d :: w).reverse = w.reverse ++ d :: u2.reverse := by
    simp
  rw [hrev, dropWhile_append_all (by intro c hc; exact hw c (List.mem_reverse.mp hc)),
    List.dropWhile_cons_of_neg (by simp [hd])]
  exact ⟨u2, by simp⟩

theorem toList_mk (l : List Char) : (String.mk l).toList = l := rfl

theorem mk_ne_empty {l : List Char} (h : l ≠ []) : String.mk l ≠ "" := by
  intro he
  exact h (congrArg String.data he)

/-- `startswith("{")` on a stripped string whose list form is known. -/
theorem pyStartsWith_strip_brace {s : String} {f : Char} {m : List Char}
    (h : pyStripL s.toList = f :: m) :
    pyStartsWith (pyStrip s) "\x7b" = ('{' == f) := by
  unfold pyStartsWith pyStrip
  rw [toList_mk, h]
  show List.isPrefixOf ['{'] (f :: m) = ('{' == f)
  simp [List.isPrefixOf]

/-- `endswith("}")` on a stripped string whose list form is known. -/
theorem pyEndsWith_strip_brace {s : String} {d : Char} {m : List Char}
    (h : pyStripL s.toList = m ++ [d]) :
    pyEndsWith (pyStrip s) "\x7d" = ('}' == d) := by
  unfold pyEndsWith pyStrip
  rw [toList_mk, h]
  show List.isSuffixOf ['}'] (m ++ [d]) = ('}' == d)
  unfold List.isSuffixOf
  simp [List.isPrefixOf]

/-! ## Characters not covered by any pattern occurrence survive `replaceL` -/

theorem replaceLF_congr : ∀ (f g : Nat) (s pat : List Char),
    s.length ≤ f → s.length ≤ g → pat ≠ [] →
    replaceLF f s pat = replaceLF g s pat := by
  intro f
  induction f with
  | zero =>
    intro g s pat hf _ _
    cases s with
    | nil =>
      cases g with
      | zero => rfl
      | succ g2 => rfl
    | cons c rest => simp at hf
  | succ f2 ih =>
    intro g s pat hf hg hpat
    cases s with
    | nil =>
      cases g with
      | zero => rfl
      | succ g2 => rfl
    | cons c rest =>
      cases g with
      | zero => simp at hg
      | succ g2 =>
        show (if pat.isPrefixOf (c :: rest) then
            replaceLF f2 ((c :: rest).drop pat.length) pat
          else c :: replaceLF f2 rest pat) =
          (if pat.isPrefixOf (c :: rest) then
            replaceLF g2 ((c :: rest).drop pat.length) pat
          else c :: replaceLF g2 rest pat)
        by_cases h : pat.isPrefixOf (c :: rest) = true
        · rw [if_pos h, if_pos h]
          apply ih
          · rw [List.length_drop]
            have : 1 ≤ pat.length := by
              cases pat with
              | nil => cases hpat rfl
              | cons a b => simp
            simp only [List.length_cons] at hf ⊢
            omega
          · rw [List.length_drop]
            have : 1 ≤ pat.length := by
              cases pat with
              | nil => cases hpat rfl
              | cons a b => simp
            simp only [List.length_cons] at hg ⊢
            omega
          · exact hpat
        · rw [if_neg h, if_neg h]
          congr 1
          apply ih
          · simp only [List.length_cons] at hf
            omega
          · simp only [List.length_cons] at hg
            omega
          · exact hpat

theorem replaceL_cons_eq (c : Char) (rest : List Char) (p : Char) (ps : List Char) :
    replaceL (c :: rest) (p :: ps) =
      if (p :: ps).isPrefixOf (c :: rest) then
        replaceL ((c :: rest).drop (p :: ps).length) (p :: ps)
      else
        c :: replaceL rest (p :: ps) := by
  have hstep : replaceL (c :: rest) (p :: ps) =
      if (p :: ps).isPrefixOf (c :: rest) then
        replaceLF rest.length ((c :: rest).drop (p :: ps).length) (p :: ps)
      else c :: replaceLF rest.length rest (p :: ps) := rfl
  rw [hstep]
  by_cases h : (p :: ps).isPrefixOf (c :: rest) = true
  · rw [if_pos h, if_pos h]
    show replaceLF rest.length ((c :: rest).drop (p :: ps).length) (p :: ps) =
      replaceL ((c :: rest).drop (p :: ps).length) (p :: ps)
    show replaceLF rest.length ((c :: rest).drop (p :: ps).length) (p :: ps) =
      replaceLF ((c :: rest).drop (p :: ps).length).length
        ((c :: rest).drop (p :: ps).length) (p :: ps)
    apply replaceLF_congr
    · rw [List.length_drop]
      simp only [List.length_cons]
      omega
    · exact Nat.le_refl _
    · intro hx
      cases hx
  · rw [if_neg h, if_neg h]
    rfl

/-- If no occurrence of `pat` inside `u ++ d :: v` covers the position of
`d`, then `d` survives the replacement. -/
theorem replaceL_survives : ∀ (n : Nat) (pat u : List Char) (d : Char) (v : List Char),
    (u ++ d :: v).length ≤ n → pat ≠ [] →
    (∀ u1 u2, u = u1 ++ u2 → u2.length < pat.length →
      pat.isPrefixOf (u2 ++ d :: v) = false) →
    d ∈ replaceL (u ++ d :: v) pat := by
  intro n
  induction n with
  | zero =>
    intro pat u d v hlen _ _
    simp at hlen
  | succ n ih =>
    intro pat u d v hlen hpat hyp
    obtain ⟨p, ps, rfl⟩ : ∃ p ps, pat = p :: ps := by
      cases pat with
      | nil => cases hpat rfl
      | cons p ps => exact ⟨p, ps, rfl⟩
    cases u with
    | nil =>
      rw [List.nil_append]
      by_cases hp : (p :: ps).isPrefixOf (d :: v) = true
      · have := hyp [] [] rfl (by simp)
        rw [List.nil_append] at this
        rw [this] at hp
        cases hp
      · rw [replaceL_cons_eq, if_neg (by simpa using hp)]
        exact List.mem_cons_self d _
    | cons c u2 =>
      rw [List.cons_append]
      by_cases hp : (p :: ps).isPrefixOf (c :: (u2 ++ d :: v)) = true
      · by_cases hL : (p :: ps).length ≤ (c :: u2).length
        · rw [replaceL_cons_eq, if_pos (by rw [← List.cons_append]; exact hp)]
          have hdrop : (c :: (u2 ++ d :: v)).drop (p :: ps).length =
              (c :: u2).drop (p :: ps).length ++ d :: v := by
            rw [← List.cons_append, List.drop_append_of_le_length hL]
          rw [hdrop]
          apply ih
          · have h1 : ((c :: u2).drop (p :: ps).length ++ d :: v).length ≤
                (c :: u2).length - (p :: ps).length + (d :: v).length := by
              simp
            have h2 : ((c :: u2) ++ d :: v).length ≤ n + 1 := hlen
            simp only [List.length_append] at h2 ⊢
            simp only [List.length_drop]
            have h3 : 0 < (p :: ps).length := by simp
            omega
          · exact hpat
          · intro u1 u3 hsplit hlt
            apply hyp ((c :: u2).take (p :: ps).length ++ u1) u3
            · rw [List.append_assoc, ← hsplit, List.take_append_drop]
            · exact hlt
        · have := hyp [] (c :: u2) rfl (by omega)
          rw [List.cons_append] at this
          rw [this] at hp
          cases hp
      · rw [replaceL_cons_eq, if_neg (by simpa using hp)]
        apply List.mem_cons_of_mem
        apply ih
        · have h2 : ((c :: u2) ++ d :: v).length ≤ n + 1 := hlen
          simp only [List.length_cons, List.length_append] at h2 ⊢
          omega
        · exact hpat
        · intro u1 u3 hsplit hlt
          apply hyp (c :: u1) u3
          · rw [hsplit, List.cons_append]
          · exact hlt

/-! ## The second summarization call is unreachable -/

theorem pushAcc_none (c : Char) : pushAcc none c = none := rfl

/-- A successful extraction needs an opening brace in the text. -/
theorem scan_mem_open : ∀ (l : List Char) (count : Int) (v : JVal),
    scanJson l count none = some v → '{' ∈ l := by
  intro l
  induction l with
  | nil =>
    intro count v h
    rw [scanJson] at h
    cases h
  | cons c rest ih =>
    intro count v h
    rw [scanJson] at h
    by_cases h1 : c = '{'
    · rw [h1]; exact List.mem_cons_self _ _
    · rw [if_neg h1] at h
      by_cases h2 : c = '}'
      · rw [if_pos h2] at h
        by_cases h3 : count - 1 = 0
        · rw [if_pos h3] at h
          exact List.mem_cons_of_mem _ (ih _ _ h)
        · rw [if_neg h3, pushAcc_none] at h
          exact List.mem_cons_of_mem _ (ih _ _ h)
      · rw [if_neg h2, pushAcc_none] at h
        exact List.mem_cons_of_mem _ (ih _ _ h)

theorem toList_append (s t : String) : (s ++ t).toList = s.toList ++ t.toList :=
  String.data_append s t

/-- Shape of `json.dumps` of a dict: `'{' … '}'`. -/
theorem dumps_jobj_shape (fs : List (String × JVal)) :
    ∃ mid, (dumpsV (JVal.jobj fs)).toList = '{' :: (mid ++ ['}']) := by
  refine ⟨(dumpsObj fs).toList, ?_⟩
  rw [dumpsV]
  rw [toList_append, toList_append]
  rfl

theorem dumps_jobj_getLast (fs : List (String × JVal)) :
    (dumpsV (JVal.jobj fs)).toList.getLast? = some '}' := by
  obtain ⟨mid, hm⟩ := dumps_jobj_shape fs
  rw [hm, ← List.cons_append]
  exact List.getLast?_concat _

theorem strip_replace_ne {resp patS : String} {y : Char}
    (hy : y ∈ replaceL resp.toList patS.toList) (hny : pyWsChar y = false) :
    pyStrip (pyReplace resp patS) ≠ "" := by
  unfold pyReplace pyStrip
  rw [toList_mk]
  exact mk_ne_empty (pyStripL_ne_nil hy hny)

/-- From a detected tool call, recover the extractor-level fact when the
pure-decode guard is false. -/
theorem detect_extract {response : String} {fs : List (String × JVal)}
    (h : detectToolCall response = some fs)
    (hcond : (pyStartsWith (pyStrip response) "\x7b" &&
              pyEndsWith (pyStrip response) "\x7d") = false) :
    extractJsonFromText response = some (JVal.jobj fs) := by
  have hraw : rawToolCall response = extractJsonFromText response := by
    unfold rawToolCall pureParse
    rw [hcond]
    rfl
  cases he : extractJsonFromText response with
  | none =>
    have hnone : detectToolCall response = none := by
      unfold detectToolCall
      rw [hraw, he]
    rw [hnone] at h
    cases h
  | some v =>
    cases v with
    | jobj fs2 =>
      have hd : detectToolCall response =
          if (pyTruthy (JVal.jobj fs2) && hasKey fs2 "tool") = true then some fs2
          else none := by
        unfold detectToolCall
        rw [hraw, he]
      rw [hd] at h
      by_cases hg : (pyTruthy (JVal.jobj fs2) && hasKey fs2 "tool") = true
      · rw [if_pos hg] at h
        cases h
        rfl
      · rw [if_neg hg] at h
        cases h
    | jnull =>
      have hnone : detectToolCall response = none := by
        unfold detectToolCall
        rw [hraw, he]
      rw [hnone] at h
      cases h
    | jbool b =>
      have hnone : detectToolCall response = none := by
        unfold detectToolCall
        rw [hraw, he]
      rw [hnone] at h
      cases h
    | jnum n =>
      have hnone : detectToolCall response = none := by
        unfold detectToolCall
        rw [hraw, he]
      rw [hnone] at h
      cases h
    | jstr s =>
      have hnone : detectToolCall response = none := by
        unfold detectToolCall
        rw [hraw, he]
      rw [hnone] at h
      cases h
    | jarr xs =>
      have hnone : detectToolCall response = none := by
        unfold detectToolCall
        rw [hraw, he]
      rw [hnone] at h
      cases h

/-- Core dead-code fact: whenever a tool call is detected, the residual
`text_response` of lines 120-125 is non-empty, so the summarization call of
lines 136-140 can never run. -/
theorem textResponse_ne_empty (response : String) (fs : List (String × JVal))
    (h : detectToolCall response = some fs) : textResponseOf response fs ≠ "" := by
  unfold textResponseOf
  by_cases hc : (pyStartsWith (pyStrip response) "\x7b" &&
                 pyEndsWith (pyStrip response) "\x7d") = true
  · rw [if_pos hc]
    intro he
    rw [he] at h
    rw [show detectToolCall "" = none from rfl] at h
    cases h
  · have hcond : (pyStartsWith (pyStrip response) "\x7b" &&
                  pyEndsWith (pyStrip response) "\x7d") = false := by
      simpa using hc
    rw [if_neg (by rw [hcond]; simp)]
    have hext : extractJsonFromText response = some (JVal.jobj fs) :=
      detect_extract h hcond
    have hmem : '{' ∈ response.toList := by
      unfold extractJsonFromText at hext
      exact scan_mem_open _ _ _ hext
    obtain ⟨w, f, t, hl, hw, hf⟩ :=
      exists_first_false (p := pyWsChar) hmem (by decide)
    obtain ⟨mid, hshape⟩ := dumps_jobj_shape fs
    have hpatne : (dumpsV (JVal.jobj fs)).toList ≠ [] := by
      rw [hshape]; intro hx; cases hx
    have hstart : pyStartsWith (pyStrip response) "\x7b" = ('{' == f) := by
      obtain ⟨m, hm⟩ := pyStripL_decomp_head hw hf
      exact pyStartsWith_strip_brace (by rw [hl]; exact hm)
    by_cases hfb : f = '{'
    · -- the stripped response starts with '{'; the condition forces the
      -- last non-whitespace character to differ from '}'
      have hstart2 : pyStartsWith (pyStrip response) "\x7b" = true := by
        rw [hstart, hfb]; simp
      have hend : pyEndsWith (pyStrip response) "\x7d" = false := by
        cases hE : pyEndsWith (pyStrip response) "\x7d" with
        | false => rfl
        | true => rw [hstart2, hE] at hcond; cases hcond
      have hfmem : f ∈ response.toList := by
        rw [hl]; exact List.mem_append_right _ (List.mem_cons_self _ _)
      obtain ⟨w2, g, t2, hlr, hw2, hg⟩ :=
        exists_first_false (List.mem_reverse.mpr hfmem) hf
      have hl2 : response.toList = t2.reverse ++ g :: w2.reverse := by
        have h0 : response.toList.reverse.reverse = (w2 ++ g :: t2).reverse := by
          rw [hlr]
        rw [List.reverse_reverse] at h0
        rw [h0]
        simp
      obtain ⟨m2, hm2⟩ := pyStripL_decomp_last
        (by intro c hc2; exact hw2 c (List.mem_reverse.mp hc2)) hg
      have hendv : pyEndsWith (pyStrip response) "\x7d" = ('}' == g) :=
        pyEndsWith_strip_brace (by rw [hl2]; exact hm2)
      have hgneq : g ≠ '}' := by
        intro hgg
        rw [hendv, hgg] at hend
        simp at hend
      have hsurv : g ∈ replaceL response.toList (dumpsV (JVal.jobj fs)).toList := by
        rw [hl2]
        apply replaceL_survives (t2.reverse ++ g :: w2.reverse).length _ _ _ _
          le_rfl hpatne
        intro u1 u3 hsplit hlt
        by_contra hP
        have hP2 : (dumpsV (JVal.jobj fs)).toList.isPrefixOf (u3 ++ g :: w2.reverse) = true := by
          cases hQ : (dumpsV (JVal.jobj fs)).toList.isPrefixOf (u3 ++ g :: w2.reverse) with
          | false => exact absurd hQ hP
          | true => rfl
        obtain ⟨r, hr⟩ := List.isPrefixOf_iff_prefix.mp hP2
        -- pat = u3 ++ g :: mid2 with mid2 a prefix of trailing whitespace
        have hL : u3.length < (dumpsV (JVal.jobj fs)).toList.length := hlt
        have htake : (dumpsV (JVal.jobj fs)).toList =
            ((dumpsV (JVal.jobj fs)).toList ++ r).take (dumpsV (JVal.jobj fs)).toList.length := by
          rw [List.take_append_eq_append_take, List.take_of_length_le le_rfl,
            Nat.sub_self, List.take_zero, List.append_nil]
        rw [hr] at htake
        rw [List.take_append_eq_append_take,
          List.take_of_length_le (Nat.le_of_lt hL)] at htake
        obtain ⟨k, hk⟩ : ∃ k, (dumpsV (JVal.jobj fs)).toList.length - u3.length = k + 1 := by
          refine ⟨(dumpsV (JVal.jobj fs)).toList.length - u3.length - 1, ?_⟩
          omega
        rw [hk, List.take_succ_cons] at htake
        have hlast := dumps_jobj_getLast fs
        rw [htake] at hlast
        cases hmid2 : w2.reverse.take k with
        | nil =>
          rw [hmid2] at hlast
          rw [List.getLast?_concat] at hlast
          have : g = '}' := by
            cases hlast
            rfl
          exact hgneq this
        | cons m0 m1 =>
          rw [hmid2] at hlast
          rw [List.getLast?_append_of_ne_nil _ (by intro hx; cases hx)] at hlast
          rw [List.getLast?_cons_cons] at hlast
          have hmemlast : '}' ∈ m0 :: m1 := by
            obtain ⟨hne, heq⟩ := List.mem_getLast?_eq_getLast (Option.mem_def.mpr hlast)
            rw [heq]
            exact List.getLast_mem hne
          have : '}' ∈ w2 := by
            rw [← hmid2] at hmemlast
            exact List.mem_reverse.mp (List.take_subset _ _ hmemlast)
          have := hw2 '}' this
          cases this
      exact strip_replace_ne hsurv hg
    · -- the first non-whitespace character is not '{': it survives
      have hsurv : f ∈ replaceL response.toList (dumpsV (JVal.jobj fs)).toList := by
        rw [hl]
        apply replaceL_survives (w ++ f :: t).length _ _ _ _ le_rfl hpatne
        intro u1 u3 hsplit hlt
        cases hQ : (dumpsV (JVal.jobj fs)).toList.isPrefixOf (u3 ++ f :: t) with
        | false => rfl
        | true =>
          obtain ⟨r, hr⟩ := List.isPrefixOf_iff_prefix.mp hQ
          rw [hshape] at hr
          cases u3 with
          | nil =>
            rw [List.nil_append] at hr
            have hh : ('{' : Char) = f := by
              have h0 := congrArg List.head? hr
              simp at h0
              exact h0
            exact absurd hh.symm hfb
          | cons a u4 =>
            have ha : ('{' : Char) = a := by
              have h0 := congrArg List.head? hr
              simp at h0
              exact h0
            have hamem : a ∈ w := by
              rw [hsplit]
              exact List.mem_append_right _ (List.mem_cons_self _ _)
            have hws := hw a hamem
            rw [← ha] at hws
            cases hws
      exact strip_replace_ne hsurv hf

/-! ## History-bound and store lemmas -/

theorem manageHistory_eq_lastN (h : List Turn) : manageHistory h = lastN MAX_HISTORY h := by
  unfold manageHistory lastN
  by_cases hl : MAX_HISTORY < h.length
  · rw [if_pos hl]
  · rw [if_neg hl]
    have h0 : h.length - MAX_HISTORY = 0 := by omega
    rw [h0, List.drop_zero]

theorem manageHistory_length (h : List Turn) :
    (manageHistory h).length ≤ MAX_HISTORY := by
  unfold manageHistory
  by_cases hl : MAX_HISTORY < h.length
  · rw [if_pos hl]
    rw [List.length_drop]
    omega
  · rw [if_neg hl]
    omega

theorem lastN_of_le {α : Type} (n : Nat) (l : List α) (h : l.length ≤ n) :
    lastN n l = l := by
  unfold lastN
  have h0 : l.length - n = 0 := by omega
  rw [h0, List.drop_zero]

theorem hist_set_self (st : Store) (uid : String) (h : List Turn) :
    Store.hist (Store.set st uid h) uid = h := by
  unfold Store.hist Store.set
  simp

theorem hist_set_other (st : Store) (uid : String) (h : List Turn) (sid : String)
    (hne : sid ≠ uid) : Store.hist (Store.set st uid h) sid = Store.hist st sid := by
  unfold Store.hist Store.set
  rw [if_neg hne]

/-- Creating the per-session list on first touch does not change any
session's stored history (an unseen session already reads as empty). -/
theorem creadStore_hist (st : Store) (uid sid : String) :
    Store.hist (creadStore st uid) sid = Store.hist st sid := by
  unfold creadStore
  by_cases h0 : (st uid).isNone
  · rw [if_pos h0]
    by_cases hs : sid = uid
    · subst hs
      rw [hist_set_self]
      unfold Store.hist
      rw [Option.isNone_iff_eq_none.mp h0]
      rfl
    · exact hist_set_other _ _ _ _ hs
  · rw [if_neg h0]

/-! ## Path lemmas for `process` -/

theorem cmdAi_store (rs : RouterState) (args : List String) :
    (cmdAi rs args).state.store = rs.store := by
  cases args with
  | nil => rfl
  | cons a rest =>
    simp only [cmdAi]
    cases h : rs.ai.providers.contains (pyLower a) with
    | true => rfl
    | false => rfl

theorem cmdAi_genCalls (rs : RouterState) (args : List String) :
    (cmdAi rs args).genCalls = [] := by
  cases args with
  | nil => rfl
  | cons a rest =>
    simp only [cmdAi]
    cases h : rs.ai.providers.contains (pyLower a) with
    | true => rfl
    | false => rfl

theorem handleCommand_store (rs : RouterState) (cmdText uid : String) :
    (handleCommand rs cmdText uid).state.store = rs.store ∨
    (handleCommand rs cmdText uid).state.store = Store.set rs.store uid [] := by
  unfold handleCommand
  by_cases h1 : cmdOf cmdText = "quit"
  · rw [if_pos h1]
    exact Or.inl rfl
  · rw [if_neg h1]
    by_cases h2 : cmdOf cmdText = "clear"
    · rw [if_pos h2]
      cases h : rs.store uid with
      | some v => exact Or.inr rfl
      | none => exact Or.inl rfl
    · rw [if_neg h2]
      by_cases h3 : cmdOf cmdText = "ai"
      · rw [if_pos h3]
        exact Or.inl (cmdAi_store rs _)
      · rw [if_neg h3]
        by_cases h4 : cmdOf cmdText = "help"
        · rw [if_pos h4]
          exact Or.inl rfl
        · rw [if_neg h4]
          exact Or.inl rfl

theorem handleCommand_genCalls (rs : RouterState) (cmdText uid : String) :
    (handleCommand rs cmdText uid).genCalls = [] := by
  unfold handleCommand
  by_cases h1 : cmdOf cmdText = "quit"
  · rw [if_pos h1]
  · rw [if_neg h1]
    by_cases h2 : cmdOf cmdText = "clear"
    · rw [if_pos h2]
    · rw [if_neg h2]
      by_cases h3 : cmdOf cmdText = "ai"
      · rw [if_pos h3]
        exact cmdAi_genCalls rs _
      · rw [if_neg h3]
        by_cases h4 : cmdOf cmdText = "help"
        · rw [if_pos h4]
        · rw [if_neg h4]

theorem toolBranch_facts (gen : GenOracle) (io : ToolOracle) (ai : AIState)
    (store0 : Store) (hist : List Turn) (text uid response : String)
    (fs : List (String × JVal)) (hdet : detectToolCall response = some fs) :
    (toolBranch gen io ai store0 hist text uid response fs).genCalls = [text] ∧
    ((toolBranch gen io ai store0 hist text uid response fs).state.store = store0 ∨
      ∃ new, (toolBranch gen io ai store0 hist text uid response fs).state.store =
        Store.set store0 uid (manageHistory (hist ++ new))) := by
  unfold toolBranch
  by_cases h1 : pyTruthy ((jGet fs "tool").getD JVal.jnull) = false
  · rw [if_pos h1]
    exact ⟨rfl, Or.inl rfl⟩
  · rw [if_neg h1]
    cases hargs : (jGet fs "args").getD (JVal.jobj []) with
    | jobj argFs =>
      dsimp only
      cases hex : toolsExecute io ((jGet fs "tool").getD JVal.jnull) argFs with
      | error e => exact ⟨rfl, Or.inl rfl⟩
      | ok result =>
        dsimp only
        rw [if_neg (textResponse_ne_empty response fs hdet)]
        refine ⟨rfl, Or.inr ⟨[⟨"user", text⟩, ⟨"assistant", response⟩,
          ⟨"user", "Tool '" ++ pyStr ((jGet fs "tool").getD JVal.jnull) ++ "' result: " ++
            toolResultStr result⟩,
          ⟨"assistant", textResponseOf response fs ++ "\n\nTool result: " ++
            toolResultStr result⟩], ?_⟩⟩
        simp
    | jnull => exact ⟨rfl, Or.inl rfl⟩
    | jbool b => exact ⟨rfl, Or.inl rfl⟩
    | jnum n => exact ⟨rfl, Or.inl rfl⟩
    | jstr s => exact ⟨rfl, Or.inl rfl⟩
    | jarr xs => exact ⟨rfl, Or.inl rfl⟩

theorem conv_facts (gen : GenOracle) (io : ToolOracle) (rs : RouterState)
    (text uid : String) :
    (conv gen io rs text uid).genCalls = [text] ∧
    ((conv gen io rs text uid).state.store = creadStore rs.store uid ∨
      ∃ new, (conv gen io rs text uid).state.store =
        Store.set (creadStore rs.store uid) uid
          (manageHistory (Store.hist rs.store uid ++ new))) := by
  unfold conv
  dsimp only
  cases hg : gen text (Store.hist (creadStore rs.store uid) uid) with
  | error e => exact ⟨rfl, Or.inl rfl⟩
  | ok response =>
    dsimp only
    cases hd : detectToolCall response with
    | none =>
      refine ⟨rfl, Or.inr ⟨[⟨"user", text⟩, ⟨"assistant", response⟩], ?_⟩⟩
      unfold plainReply
      rw [creadStore_hist]
    | some fs =>
      obtain ⟨hcalls, hstore⟩ := toolBranch_facts gen io rs.ai (creadStore rs.store uid)
        (Store.hist (creadStore rs.store uid) uid) text uid response fs hd
      refine ⟨hcalls, ?_⟩
      rcases hstore with h | ⟨new, hnew⟩
      · exact Or.inl h
      · refine Or.inr ⟨new, ?_⟩
        rw [hnew, creadStore_hist]

/-! ## Claim theorems -/

theorem process_eq (gen : GenOracle) (io : ToolOracle) (rs : RouterState)
    (text0 uid : String) :
    process gen io rs text0 uid =
      if pyStrip text0 = "" then ⟨⟨false, none, some MSG_EMPTY_MSG, none⟩, rs, []⟩
      else if pyStartsWith (pyStrip text0) "/" then
        handleCommand rs ((pyStrip text0).drop 1) uid
      else conv gen io rs (pyStrip text0) uid := rfl

/-- C1: every session's stored history stays within `MAX_HISTORY` after any
`process` call (successful or failed), and, on any non-command input, the
resulting history for the addressed session consists of the **last**
`MAX_HISTORY` elements of the old history plus whatever turns the call
appended — the oldest turns are the ones dropped. -/
theorem claim_C1 (gen : GenOracle) (io : ToolOracle) (rs : RouterState)
    (text0 uid : String)
    (hbound : ∀ sid, (Store.hist rs.store sid).length ≤ MAX_HISTORY) :
    (∀ sid, (Store.hist (process gen io rs text0 uid).state.store sid).length ≤
      MAX_HISTORY) ∧
    (pyStartsWith (pyStrip text0) "/" = false →
      ∃ new, Store.hist (process gen io rs text0 uid).state.store uid =
        lastN MAX_HISTORY (Store.hist rs.store uid ++ new)) := by
  rw [process_eq]
  by_cases h0 : pyStrip text0 = ""
  · rw [if_pos h0]
    constructor
    · intro sid
      exact hbound sid
    · intro _
      exact ⟨[], by rw [List.append_nil, lastN_of_le _ _ (hbound uid)]⟩
  · rw [if_neg h0]
    by_cases h1 : pyStartsWith (pyStrip text0) "/" = true
    · rw [if_pos h1]
      constructor
      · intro sid
        rcases handleCommand_store rs ((pyStrip text0).drop 1) uid with h | h
        · rw [h]
          exact hbound sid
        · rw [h]
          by_cases hs : sid = uid
          · subst hs
            rw [hist_set_self]
            exact Nat.zero_le _
          · rw [hist_set_other _ _ _ _ hs]
            exact hbound sid
      · intro hcontra
        rw [h1] at hcontra
        cases hcontra
    · rw [if_neg h1]
      obtain ⟨hcalls, hstore⟩ := conv_facts gen io rs (pyStrip text0) uid
      constructor
      · intro sid
        rcases hstore with h | ⟨new, hnew⟩
        · rw [h, creadStore_hist]
          exact hbound sid
        · rw [hnew]
          by_cases hs : sid = uid
          · subst hs
            rw [hist_set_self]
            exact manageHistory_length _
          · rw [hist_set_other _ _ _ _ hs, creadStore_hist]
            exact hbound sid
      · intro _
        rcases hstore with h | ⟨new, hnew⟩
        · refine ⟨[], ?_⟩
          rw [h, creadStore_hist, List.append_nil, lastN_of_le _ _ (hbound uid)]
        · refine ⟨new, ?_⟩
          rw [hnew, hist_set_self, manageHistory_eq_lastN]

theorem claim_C1_witness :
    (∀ sid, (Store.hist rs0.store sid).length ≤ MAX_HISTORY) ∧
    ((∀ sid, (Store.hist (process genHello ioOk rs0 "hi" "console").state.store sid).length ≤
        MAX_HISTORY) ∧
      (pyStartsWith (pyStrip "hi") "/" = false →
        ∃ new, Store.hist (process genHello ioOk rs0 "hi" "console").state.store "console" =
          lastN MAX_HISTORY (Store.hist rs0.store "console" ++ new))) :=
  ⟨fun sid => by simp [rs0, Store.hist],
   claim_C1 genHello ioOk rs0 "hi" "console" (fun sid => by simp [rs0, Store.hist])⟩

/-- C2: a failing backend generation call leaves a failed `Result` carrying
`GEN_FAILED` and the session history exactly as it was; moreover `process`
never makes more than one generation call per turn, so in particular the
"second, summarization call" can never be the failing one. -/
theorem claim_C2 (gen : GenOracle) (io : ToolOracle) (rs : RouterState)
    (text0 uid : String)
    (h1 : pyStrip text0 ≠ "")
    (h2 : pyStartsWith (pyStrip text0) "/" = false)
    (h3 : ∃ e, gen (pyStrip text0) (Store.hist rs.store uid) = Except.error e) :
    ((process gen io rs text0 uid).result.success = false ∧
     (process gen io rs text0 uid).result.error = some MSG_GEN_FAILED ∧
     Store.hist (process gen io rs text0 uid).state.store uid =
       Store.hist rs.store uid) ∧
    (∀ gen2 io2 rs2 t2 u2,
      ((process gen2 io2 rs2 t2 u2).genCalls).length ≤ 1) := by
  constructor
  · obtain ⟨e, he⟩ := h3
    rw [process_eq, if_neg h1, if_neg (by rw [h2]; exact Bool.false_ne_true)]
    have hconv : conv gen io rs (pyStrip text0) uid =
        ⟨⟨false, none, some MSG_GEN_FAILED, none⟩,
         ⟨creadStore rs.store uid, rs.ai⟩, [pyStrip text0]⟩ := by
      unfold conv
      dsimp only
      rw [creadStore_hist, he]
    rw [hconv]
    exact ⟨rfl, rfl, creadStore_hist rs.store uid uid⟩
  · intro gen2 io2 rs2 t2 u2
    rw [process_eq]
    by_cases h0 : pyStrip t2 = ""
    · rw [if_pos h0]
      exact Nat.zero_le _
    · rw [if_neg h0]
      by_cases hb : pyStartsWith (pyStrip t2) "/" = true
      · rw [if_pos hb, handleCommand_genCalls]
        exact Nat.zero_le _
      · rw [if_neg hb, (conv_facts gen2 io2 rs2 (pyStrip t2) u2).1]
        exact Nat.le_refl _

theorem claim_C2_witness :
    (pyStrip "hi" ≠ "" ∧ pyStartsWith (pyStrip "hi") "/" = false ∧
      (∃ e, genFail (pyStrip "hi") (Store.hist rs0.store "console") = Except.error e)) ∧
    (((process genFail ioOk rs0 "hi" "console").result.success = false ∧
      (process genFail ioOk rs0 "hi" "console").result.error = some MSG_GEN_FAILED ∧
      Store.hist (process genFail ioOk rs0 "hi" "console").state.store "console" =
        Store.hist rs0.store "console") ∧
     (∀ gen2 io2 rs2 t2 u2,
       ((process gen2 io2 rs2 t2 u2).genCalls).length ≤ 1)) :=
  ⟨⟨by decide, by decide, ⟨"boom", rfl⟩⟩,
   claim_C2 genFail ioOk rs0 "hi" "console" (by decide) (by decide) ⟨"boom", rfl⟩⟩

/-- C3: router.py line 12 requests `ToolExecutionError` from `modules.tools`,
which binds no such name, so the `from … import` fails; and in the embedded
tool path every tool failure is shaped by the generic `except Exception`
handler of lines 148-150 (nothing can raise an undefined exception class). -/
theorem claim_C3 :
    routerImportOk = false ∧
    toolsModuleNames.contains "ToolExecutionError" = false ∧
    (∀ (gen : GenOracle) (io : ToolOracle) (ai : AIState) (store0 : Store)
       (hist : List Turn) (text uid response : String) (fs : List (String × JVal))
       (e : String) (argFs : List (String × JVal)),
      pyTruthy ((jGet fs "tool").getD JVal.jnull) = true →
      (jGet fs "args").getD (JVal.jobj []) = JVal.jobj argFs →
      toolsExecute io ((jGet fs "tool").getD JVal.jnull) argFs = Except.error e →
      (toolBranch gen io ai store0 hist text uid response fs).result.error =
        some ("Error processing tool call: " ++ e)) := by
  refine ⟨rfl, rfl, ?_⟩
  intro gen io ai store0 hist text uid response fs e argFs ht hargs hex
  unfold toolBranch
  dsimp only
  rw [if_neg (by rw [ht]; simp)]
  rw [hargs]
  dsimp only
  rw [hex]

/-- C4 (code bug): `/quit` and `/help` do not succeed.  `cmd_quit` and
`cmd_help` are `@staticmethod`s whose signature still begins with `self`, so
the two-argument call `handler(args, uid)` raises `TypeError` and the
`except` of lines 173-175 converts the command into a failed result:
`/quit` never carries `action = quit`, and `/help` never returns the help
text. -/
theorem claim_C4 (gen : GenOracle) (io : ToolOracle) (rs : RouterState) (uid : String) :
    (process gen io rs "/quit" uid).result.success = false ∧
    (process gen io rs "/quit" uid).result.action = none ∧
    (process gen io rs "/quit" uid).result.error =
      some "Command failed: Router.cmd_quit() missing 1 required positional argument: 'uid'" ∧
    (process gen io rs "/help" uid).result.success = false ∧
    (process gen io rs "/help" uid).result.response = none ∧
    (process gen io rs "/help" uid).result.error =
      some "Command failed: Router.cmd_help() missing 1 required positional argument: 'uid'" :=
  ⟨rfl, rfl, rfl, rfl, rfl, rfl⟩

/-- C9: `/ai bogus` with providers `openai`/`ollama` fails with a message
containing "not found" and the available-provider list, and the current
provider is untouched. -/
theorem claim_C9 :
    (process genHello ioOk rs0 "/ai bogus" "console").result.success = false ∧
    (process genHello ioOk rs0 "/ai bogus" "console").result.error =
      some "AI provider not found. Available: openai, ollama" ∧
    ("not found".toList <:+: "AI provider not found. Available: openai, ollama".toList) ∧
    ("openai, ollama".toList <:+: "AI provider not found. Available: openai, ollama".toList) ∧
    (process genHello ioOk rs0 "/ai bogus" "console").state.ai = rs0.ai :=
  ⟨rfl, rfl, by decide, by decide, rfl⟩

/-! ## Brace-counter lemmas for the extractor -/

theorem pcount_cons (c : Char) (l : List Char) : pcount (c :: l) = pdelta c + pcount l := rfl

theorem pcount_append (a b : List Char) : pcount (a ++ b) = pcount a + pcount b := by
  induction a with
  | nil => simp [pcount]
  | cons c t ih =>
    rw [List.cons_append, pcount_cons, pcount_cons, ih]
    ring

theorem braceFree_mem {l : List Char} {c : Char} (h : braceFree l = true) (hc : c ∈ l) :
    c ≠ '{' ∧ c ≠ '}' := by
  unfold braceFree at h
  have := List.all_eq_true.mp h c hc
  constructor
  · intro he
    rw [he] at this
    simp at this
  · intro he
    rw [he] at this
    simp at this

theorem pcount_braceFree {l : List Char} (h : braceFree l = true) : pcount l = 0 := by
  induction l with
  | nil => rfl
  | cons c t ih =>
    have hc := braceFree_mem h (List.mem_cons_self c t)
    have ht : braceFree t = true := by
      unfold braceFree at h ⊢
      rw [List.all_cons] at h
      exact Bool.and_elim_right h
    rw [pcount_cons, ih ht]
    unfold pdelta
    rw [if_neg hc.1, if_neg hc.2]
    ring

theorem braceFree_take {l : List Char} (h : braceFree l = true) (n : Nat) :
    braceFree (l.take n) = true := by
  unfold braceFree at h ⊢
  rw [List.all_eq_true] at h ⊢
  intro x hx
  exact h x (List.take_subset n l hx)

theorem pcount_noOpen_nonpos {l : List Char} (h : '{' ∉ l) : pcount l ≤ 0 := by
  induction l with
  | nil => simp [pcount]
  | cons c t ih =>
    have hc : c ≠ '{' := fun he => h (he ▸ List.mem_cons_self c t)
    have ht := ih (fun hm => h (List.mem_cons_of_mem c hm))
    rw [pcount_cons]
    unfold pdelta
    rw [if_neg hc]
    by_cases h2 : c = '}'
    · rw [if_pos h2]
      omega
    · rw [if_neg h2]
      omega

theorem pcount_noOpen_neg {l : List Char} (h1 : '{' ∉ l) (h2 : '}' ∈ l) :
    pcount l ≤ -1 := by
  induction l with
  | nil => cases h2
  | cons c t ih =>
    have hc : c ≠ '{' := fun he => h1 (he ▸ List.mem_cons_self c t)
    have ht : '{' ∉ t := fun hm => h1 (List.mem_cons_of_mem c hm)
    rw [pcount_cons]
    by_cases hcc : c = '}'
    · have := pcount_noOpen_nonpos ht
      unfold pdelta
      rw [if_neg hc, if_pos hcc]
      omega
    · have h2t : '}' ∈ t := by
        rcases List.mem_cons.mp h2 with h | h
        · exact absurd h.symm hcc
        · exact h
      have := ih ht h2t
      unfold pdelta
      rw [if_neg hc, if_neg hcc]
      omega

/-- Scanning brace-free characters with no candidate open changes nothing. -/
theorem scan_braceFree_prefix : ∀ (pre rest : List Char) (count : Int),
    braceFree pre = true →
    scanJson (pre ++ rest) count none = scanJson rest count none := by
  intro pre
  induction pre with
  | nil => intro rest count _; rfl
  | cons c t ih =>
    intro rest count h
    have hc := braceFree_mem h (List.mem_cons_self c t)
    have ht : braceFree t = true := by
      unfold braceFree at h ⊢
      rw [List.all_cons] at h
      exact Bool.and_elim_right h
    rw [List.cons_append, scanJson, if_neg hc.1, if_neg hc.2, pushAcc_none]
    exact ih rest count ht

/-- Scanning a prefix with no `'{'` (and no candidate open) just shifts the
counter by the prefix's brace count. -/
theorem scan_noOpen_prefix : ∀ (pre rest : List Char) (count : Int),
    '{' ∉ pre →
    scanJson (pre ++ rest) count none = scanJson rest (count + pcount pre) none := by
  intro pre
  induction pre with
  | nil =>
    intro rest count _
    simp [pcount]
  | cons c t ih =>
    intro rest count h
    have hc : c ≠ '{' := fun he => h (he ▸ List.mem_cons_self c t)
    have ht : '{' ∉ t := fun hm => h (List.mem_cons_of_mem c hm)
    by_cases hcc : c = '}'
    · subst hcc
      rw [List.cons_append, scanJson, if_neg (by intro hx; cases hx)]
      have harith : count + pcount ('}' :: t) = (count - 1) + pcount t := by
        rw [pcount_cons]
        unfold pdelta
        rw [if_neg (by intro hx; cases hx), if_pos rfl]
        ring
      rw [harith]
      by_cases hz : count - 1 = 0
      · rw [if_pos rfl, if_pos hz]
        exact ih rest (count - 1) ht
      · rw [if_pos rfl, if_neg hz, pushAcc_none]
        exact ih rest (count - 1) ht
    · rw [List.cons_append, scanJson, if_neg hc, if_neg hcc, pushAcc_none]
      have harith : count + pcount (c :: t) = count + pcount t := by
        rw [pcount_cons]
        unfold pdelta
        rw [if_neg hc, if_neg hcc]
        ring
      rw [harith]
      exact ih rest count ht

/-- Scanning a whole flat balanced group while the counter is non-zero
neither opens a candidate nor fires one. -/
theorem scan_flatGroup (inner post : List Char) (c : Int)
    (hbf : braceFree inner = true) (hc : c ≠ 0) :
    scanJson (('{' :: (inner ++ ['}'])) ++ post) c none = scanJson post c none := by
  rw [List.cons_append, scanJson, if_pos rfl, if_neg hc, pushAcc_none,
    List.append_assoc, scan_braceFree_prefix inner _ _ hbf, List.singleton_append,
    scanJson, if_neg (by intro hx; cases hx), if_pos rfl]
  have hz : c + 1 - 1 = c := by ring
  rw [hz]
  rw [if_neg hc, pushAcc_none]

/-- Core lemma: scanning the strict inside of a balanced group collects
exactly that group as the candidate, and returns it when it decodes to a
dict with a `tool` key. -/
theorem scan_group_core : ∀ (rem : List Char) (saved post : List Char) (c : Int)
    (fs : List (String × JVal)),
    1 ≤ c → c + pcount rem = 0 →
    (∀ k, k < rem.length → 0 < c + pcount (rem.take k)) →
    jloads (String.mk (saved.reverse ++ rem)) = some (JVal.jobj fs) →
    hasKey fs "tool" = true →
    scanJson (rem ++ post) c (some saved) = some (JVal.jobj fs) := by
  intro rem
  induction rem with
  | nil =>
    intro saved post c fs hc h0 _ _ _
    rw [show pcount [] = 0 from rfl] at h0
    omega
  | cons x rest ih =>
    intro saved post c fs hc h0 hpre hload hkey
    by_cases hx : x = '{'
    · subst hx
      rw [List.cons_append, scanJson, if_pos rfl, if_neg (by omega)]
      have hsave : (pushAcc (some saved) '{') = some ('{' :: saved) := rfl
      rw [hsave]
      apply ih ('{' :: saved) post (c + 1) fs (by omega)
      · rw [pcount_cons] at h0
        unfold pdelta at h0
        rw [if_pos rfl] at h0
        omega
      · intro k hk
        have := hpre (k + 1) (by simpa using Nat.succ_lt_succ hk)
        rw [List.take_succ_cons, pcount_cons] at this
        unfold pdelta at this
        rw [if_pos rfl] at this
        omega
      · rw [List.reverse_cons, List.append_assoc]
        exact hload
      · exact hkey
    · by_cases hy : x = '}'
      · subst hy
        rw [List.cons_append, scanJson, if_neg (by intro h; cases h), if_pos rfl]
        cases rest with
        | nil =>
          have hc1 : c - 1 = 0 := by
            rw [pcount_cons] at h0
            unfold pdelta at h0
            rw [if_neg (by intro h; cases h), if_pos rfl] at h0
            rw [show pcount [] = 0 from rfl] at h0
            omega
          rw [if_pos hc1]
          have hrev : ('}' :: saved).reverse = saved.reverse ++ ['}'] := by
            rw [List.reverse_cons]
          rw [hrev, hload]
          dsimp only
          rw [if_pos hkey]
        | cons r0 rest2 =>
          have hgt := hpre 1 (by simp)
          rw [show ('}' :: r0 :: rest2).take 1 = ['}'] from rfl] at hgt
          rw [show pcount ['}'] = -1 from rfl] at hgt
          rw [if_neg (by omega)]
          have hsave : (pushAcc (some saved) '}') = some ('}' :: saved) := rfl
          rw [hsave]
          apply ih ('}' :: saved) post (c - 1) fs (by omega)
          · rw [pcount_cons] at h0
            unfold pdelta at h0
            rw [if_neg (by intro h; cases h), if_pos rfl] at h0
            omega
          · intro k hk
            have := hpre (k + 1) (by simpa using Nat.succ_lt_succ hk)
            rw [List.take_succ_cons, pcount_cons] at this
            unfold pdelta at this
            rw [if_neg (by intro h; cases h), if_pos rfl] at this
            omega
          · rw [List.reverse_cons, List.append_assoc]
            exact hload
          · exact hkey
      · rw [List.cons_append, scanJson, if_neg hx, if_neg hy]
        have hsave : (pushAcc (some saved) x) = some (x :: saved) := rfl
        rw [hsave]
        have hdelta : pdelta x = 0 := by
          unfold pdelta
          rw [if_neg hx, if_neg hy]
        apply ih (x :: saved) post c fs hc
        · rw [pcount_cons, hdelta] at h0
          omega
        · intro k hk
          have := hpre (k + 1) (by simpa using Nat.succ_lt_succ hk)
          rw [List.take_succ_cons, pcount_cons, hdelta] at this
          omega
        · rw [List.reverse_cons, List.append_assoc]
          exact hload
        · exact hkey

/-- Scanning a balanced group from counter 0 extracts exactly that group. -/
theorem scan_balancedGroup (s post : List Char) (fs : List (String × JVal))
    (hbg : balancedGroup s) (hp : jloads (String.mk s) = some (JVal.jobj fs))
    (ht : hasKey fs "tool" = true) :
    scanJson (s ++ post) 0 none = some (JVal.jobj fs) := by
  obtain ⟨hhead, _, hzero, hstrict⟩ := hbg
  cases s with
  | nil => cases hhead
  | cons c body =>
    have hc : c = '{' := by
      rw [List.head?_cons] at hhead
      cases hhead
      rfl
    subst hc
    rw [List.cons_append, scanJson, if_pos rfl, if_pos rfl]
    apply scan_group_core body ['{'] post 1 fs (by omega)
    · rw [pcount_cons] at hzero
      unfold pdelta at hzero
      rw [if_pos rfl] at hzero
      omega
    · intro k hk
      have := hstrict (k + 1) (by simpa using Nat.succ_lt_succ hk) (by omega)
      rw [List.take_succ_cons, pcount_cons] at this
      unfold pdelta at this
      rw [if_pos rfl] at this
      omega
    · exact hp
    · exact ht

/-! ## Detection-level lemmas -/

theorem mk_toList (s : String) : String.mk s.toList = s := rfl

theorem pyStripL_id {l : List Char} {a b : Char}
    (h1 : l.head? = some a) (ha : pyWsChar a = false)
    (h2 : l.getLast? = some b) (hb : pyWsChar b = false) :
    pyStripL l = l := by
  cases l with
  | nil => cases h1
  | cons c t =>
    rw [List.head?_cons] at h1
    cases h1
    unfold pyStripL
    rw [List.dropWhile_cons_of_neg (by simp [ha])]
    have hrev : (a :: t).reverse.head? = some b := by
      rw [List.head?_reverse]
      exact h2
    cases hr : (a :: t).reverse with
    | nil => rw [hr] at hrev; cases hrev
    | cons d r2 =>
      rw [hr] at hrev
      rw [List.head?_cons] at hrev
      cases hrev
      have hdw : List.dropWhile pyWsChar (b :: r2) = b :: r2 :=
        List.dropWhile_cons_of_neg (by simp [hb])
      rw [hdw]
      have h3 := congrArg List.reverse hr
      rw [List.reverse_reverse] at h3
      exact h3.symm

theorem hasKey_ne_nil {fs : List (String × JVal)} {k : String}
    (h : hasKey fs k = true) : fs ≠ [] := by
  intro he
  subst he
  cases h

theorem pyTruthy_jobj {fs : List (String × JVal)} (h : fs ≠ []) :
    pyTruthy (JVal.jobj fs) = true := by
  cases fs with
  | nil => cases h rfl
  | cons a t => rfl

theorem rawToolCall_eq_extract {resp : String}
    (hcond : (pyStartsWith (pyStrip resp) "\x7b" &&
              pyEndsWith (pyStrip resp) "\x7d") = false) :
    rawToolCall resp = extractJsonFromText resp := by
  unfold rawToolCall pureParse
  rw [hcond]
  rfl

theorem detect_of_extract {resp : String} {fs : List (String × JVal)}
    (hcond : (pyStartsWith (pyStrip resp) "\x7b" &&
              pyEndsWith (pyStrip resp) "\x7d") = false)
    (hex : extractJsonFromText resp = some (JVal.jobj fs))
    (ht : hasKey fs "tool" = true) :
    detectToolCall resp = some fs := by
  have hg : (pyTruthy (JVal.jobj fs) && hasKey fs "tool") = true := by
    rw [pyTruthy_jobj (hasKey_ne_nil ht), ht]
    rfl
  unfold detectToolCall
  rw [rawToolCall_eq_extract hcond, hex]
  dsimp only
  rw [if_pos hg]

/-- A response that is exactly one balanced group decoding to a dict with a
`tool` key is detected through the pure-decode path. -/
theorem detect_of_group (s : String) (fs : List (String × JVal))
    (hbg : balancedGroup s.toList)
    (hp : jloads s = some (JVal.jobj fs)) (ht : hasKey fs "tool" = true) :
    detectToolCall s = some fs := by
  obtain ⟨hhead, hlast, _, _⟩ := hbg
  have hstrip : pyStrip s = s := by
    unfold pyStrip
    rw [pyStripL_id hhead (by decide) hlast (by decide)]
    exact mk_toList s
  have hstart : pyStartsWith (pyStrip s) "\x7b" = true := by
    rw [hstrip]
    unfold pyStartsWith
    cases hl : s.toList with
    | nil => rw [hl] at hhead; cases hhead
    | cons c t =>
      rw [hl] at hhead
      rw [List.head?_cons] at hhead
      cases hhead
      show List.isPrefixOf ['{'] ('{' :: t) = true
      simp [List.isPrefixOf]
  have hend : pyEndsWith (pyStrip s) "\x7d" = true := by
    rw [hstrip]
    unfold pyEndsWith List.isSuffixOf
    have hrev : s.toList.reverse.head? = some '}' := by
      rw [List.head?_reverse]
      exact hlast
    cases hr : s.toList.reverse with
    | nil => rw [hr] at hrev; cases hrev
    | cons d r2 =>
      rw [hr] at hrev
      rw [List.head?_cons] at hrev
      cases hrev
      show List.isPrefixOf ['}'] ('}' :: r2) = true
      simp [List.isPrefixOf]
  have hpure : pureParse s = some (JVal.jobj fs) := by
    unfold pureParse
    rw [hstart, hend, if_pos (show (true && true) = true from rfl)]
    exact hp
  have hg : (pyTruthy (JVal.jobj fs) && hasKey fs "tool") = true := by
    rw [pyTruthy_jobj (hasKey_ne_nil ht), ht]
    rfl
  unfold detectToolCall rawToolCall
  rw [hpure]
  dsimp only
  rw [if_pos (pyTruthy_jobj (hasKey_ne_nil ht))]
  dsimp only
  rw [if_pos hg]

/-- Wrapping a response in brace-free prose with at least one real
(non-whitespace) character defeats the pure-decode guard of line 95. -/
theorem wrapped_cond_false (pre s post : String)
    (hpre : braceFree pre.toList = true) (hpost : braceFree post.toList = true)
    (hprose : ∃ x ∈ pre.toList ++ post.toList, pyWsChar x = false) :
    (pyStartsWith (pyStrip (pre ++ s ++ post)) "\x7b" &&
     pyEndsWith (pyStrip (pre ++ s ++ post)) "\x7d") = false := by
  by_cases hall : ∀ c ∈ pre.toList, pyWsChar c = true
  · obtain ⟨x, hx, hnx⟩ := hprose
    have hxpost : x ∈ post.toList := by
      rcases List.mem_append.mp hx with h | h
      · rw [hall x h] at hnx; cases hnx
      · exact h
    obtain ⟨w2, d, t2, hlr, hw2, hd⟩ := exists_first_false
      (List.mem_reverse.mpr hxpost) hnx
    have hpl : post.toList = t2.reverse ++ d :: w2.reverse := by
      have h0 : post.toList.reverse.reverse = (w2 ++ d :: t2).reverse := by rw [hlr]
      rw [List.reverse_reverse] at h0
      rw [h0]
      simp
    have hdmem : d ∈ post.toList := by
      rw [hpl]
      exact List.mem_append_right _ (List.mem_cons_self _ _)
    have hdne : d ≠ '}' := (braceFree_mem hpost hdmem).2
    have hwhole : (pre ++ s ++ post).toList =
        (pre.toList ++ (s.toList ++ t2.reverse)) ++ d :: w2.reverse := by
      rw [toList_append, toList_append, hpl]
      simp
    obtain ⟨m, hm⟩ := pyStripL_decomp_last
      (u := pre.toList ++ (s.toList ++ t2.reverse)) (w := w2.reverse)
      (by intro c hc; exact hw2 c (List.mem_reverse.mp hc)) hd
    have hend : pyEndsWith (pyStrip (pre ++ s ++ post)) "\x7d" = ('}' == d) :=
      pyEndsWith_strip_brace (by rw [hwhole]; exact hm)
    have hbeq : ('}' == d) = false := by
      cases hE : ('}' == d) with
      | false => rfl
      | true => exact absurd (eq_of_beq hE).symm hdne
    rw [hend, hbeq, Bool.and_false]
  · have hex2 : ∃ x ∈ pre.toList, pyWsChar x = false := by
      by_contra hno
      push_neg at hno
      apply hall
      intro c hc
      cases hb : pyWsChar c with
      | false => exact absurd hb (hno c hc)
      | true => rfl
    obtain ⟨x, hx, hnx⟩ := hex2
    obtain ⟨w, f, t, hl, hw, hf⟩ := exists_first_false hx hnx
    have hfmem : f ∈ pre.toList := by
      rw [hl]
      exact List.mem_append_right _ (List.mem_cons_self _ _)
    have hfne : f ≠ '{' := (braceFree_mem hpre hfmem).1
    have hwhole : (pre ++ s ++ post).toList =
        w ++ f :: (t ++ (s.toList ++ post.toList)) := by
      rw [toList_append, toList_append, hl]
      simp
    obtain ⟨m, hm⟩ := pyStripL_decomp_head
      (t := t ++ (s.toList ++ post.toList)) hw hf
    have hstart : pyStartsWith (pyStrip (pre ++ s ++ post)) "\x7b" = ('{' == f) :=
      pyStartsWith_strip_brace (by rw [hwhole]; exact hm)
    have hbeq : ('{' == f) = false := by
      cases hE : ('{' == f) with
      | false => rfl
      | true => exact absurd (eq_of_beq hE).symm hfne
    rw [hstart, hbeq, Bool.false_and]

/-- A flat group (no internal braces) is balanced. -/
theorem balancedGroup_flat (inner : List Char) (hbf : braceFree inner = true) :
    balancedGroup ('{' :: (inner ++ ['}'])) := by
  refine ⟨rfl, ?_, ?_, ?_⟩
  · rw [← List.cons_append]
    exact List.getLast?_concat _
  · rw [pcount_cons, pcount_append, pcount_braceFree hbf]
    show (1 : Int) + (0 + pcount ['}']) = 0
    rw [show pcount ['}'] = -1 from rfl]
    ring
  · intro k hk h0
    obtain ⟨j, rfl⟩ : ∃ j, k = j + 1 := ⟨k - 1, by omega⟩
    rw [List.take_succ_cons, pcount_cons]
    rw [show pdelta '{' = 1 from rfl]
    have hj : j ≤ inner.length := by
      simp only [List.length_cons, List.length_append, List.length_nil] at hk
      omega
    have htk : (inner ++ ['}']).take j = inner.take j := by
      rw [List.take_append_eq_append_take]
      have : j - inner.length = 0 := by omega
      rw [this, List.take_zero, List.append_nil]
    rw [htk, pcount_braceFree (braceFree_take hbf j)]
    omega

/-! ## C5: residual prose and the combined reply -/

/-- C5 counterexample: with the mixed response `Hi {"tool":"bash","args":{}}`
(compact spacing), the canonical re-serialization `json.dumps(tool_call)`
does not occur in the response, so nothing is removed: the residual is the
whole response — not the prose `Hi` with the matched substring removed, and
not empty-forcing-a-summary; exactly one generation call is made. -/
theorem claim_C5_counterexample :
    detectToolCall respC5 = some [("tool", JVal.jstr "bash"), ("args", JVal.jobj [])] ∧
    pyReplace respC5
      (dumpsV (JVal.jobj [("tool", JVal.jstr "bash"), ("args", JVal.jobj [])])) = respC5 ∧
    (process genC5 ioOk rs0 "run it" "console").result.response =
      some (respC5 ++ "\n\nTool result: ok") ∧
    respC5 ++ "\n\nTool result: ok" ≠ "Hi\n\nTool result: ok" ∧
    (process genC5 ioOk rs0 "run it" "console").genCalls = ["run it"] :=
  ⟨by rfl, by rfl, by rfl, by decide, by rfl⟩

/-- C5 (amended): in the mixed path the residual prose is the response with
all occurrences of the *canonical re-serialization* of the request removed
and stripped; it is always non-empty (when the serialization does not occur
it equals the whole response), the user-facing reply is that residual, a
blank line, and `Tool result: ` plus the serialized result, and no second
backend call is made. -/
theorem claim_C5 (gen : GenOracle) (io : ToolOracle) (rs : RouterState)
    (text0 uid response : String) (fs : List (String × JVal)) (result : JVal)
    (h1 : pyStrip text0 ≠ "")
    (h2 : pyStartsWith (pyStrip text0) "/" = false)
    (hgen : gen (pyStrip text0) (Store.hist rs.store uid) = Except.ok response)
    (hdet : detectToolCall response = some fs)
    (hmixed : (pyStartsWith (pyStrip response) "\x7b" &&
               pyEndsWith (pyStrip response) "\x7d") = false)
    (htool : pyTruthy ((jGet fs "tool").getD JVal.jnull) = true)
    (hargs : ∃ argFs, (jGet fs "args").getD (JVal.jobj []) = JVal.jobj argFs ∧
      toolsExecute io ((jGet fs "tool").getD JVal.jnull) argFs = Except.ok result) :
    (process gen io rs text0 uid).result.response =
      some (pyStrip (pyReplace response (dumpsV (JVal.jobj fs))) ++
        "\n\nTool result: " ++ toolResultStr result) ∧
    pyStrip (pyReplace response (dumpsV (JVal.jobj fs))) ≠ "" ∧
    (process gen io rs text0 uid).genCalls = [pyStrip text0] := by
  obtain ⟨argFs, hargs1, hex⟩ := hargs
  rw [process_eq, if_neg h1, if_neg (by rw [h2]; exact Bool.false_ne_true)]
  have hconv : conv gen io rs (pyStrip text0) uid =
      toolBranch gen io rs.ai (creadStore rs.store uid)
        (Store.hist (creadStore rs.store uid) uid) (pyStrip text0) uid response fs := by
    unfold conv
    dsimp only
    rw [creadStore_hist, hgen]
    dsimp only
    rw [hdet]
  rw [hconv]
  have htr : textResponseOf response fs =
      pyStrip (pyReplace response (dumpsV (JVal.jobj fs))) := by
    unfold textResponseOf
    rw [hmixed]
    rfl
  have hne := textResponse_ne_empty response fs hdet
  rw [htr] at hne
  unfold toolBranch
  dsimp only
  rw [if_neg (by rw [htool]; simp), hargs1]
  dsimp only
  rw [hex]
  dsimp only
  rw [htr, if_neg hne]
  exact ⟨rfl, hne, rfl⟩

theorem claim_C5_witness :
    (detectToolCall respC5 = some [("tool", JVal.jstr "bash"), ("args", JVal.jobj [])] ∧
     genC5 (pyStrip "run it") (Store.hist rs0.store "console") = Except.ok respC5) ∧
    ((process genC5 ioOk rs0 "run it" "console").result.response =
      some (pyStrip (pyReplace respC5
        (dumpsV (JVal.jobj [("tool", JVal.jstr "bash"), ("args", JVal.jobj [])]))) ++
        "\n\nTool result: " ++
        toolResultStr (JVal.jstr "ok")) ∧
     pyStrip (pyReplace respC5
       (dumpsV (JVal.jobj [("tool", JVal.jstr "bash"), ("args", JVal.jobj [])]))) ≠ "" ∧
     (process genC5 ioOk rs0 "run it" "console").genCalls = [pyStrip "run it"]) :=
  ⟨⟨rfl, rfl⟩,
   claim_C5 genC5 ioOk rs0 "run it" "console" respC5
     [("tool", JVal.jstr "bash"), ("args", JVal.jobj [])] (JVal.jstr "ok")
     (by decide) (by decide) rfl rfl (by decide) (by decide)
     ⟨[], rfl, rfl⟩⟩

/-! ## C6: missing versus empty `tool` field -/

/-- C6 counterexample: a brace-delimited object with an **empty** `tool`
field is not treated as plain text — the router returns an explicit failure
(`Invalid tool format`) and appends nothing. -/
theorem claim_C6_counterexample :
    jloads respC6 = some (JVal.jobj [("tool", JVal.jstr "")]) ∧
    (process genC6 ioOk rs0 "hi" "console").result.success = false ∧
    (process genC6 ioOk rs0 "hi" "console").result.error =
      some "Invalid tool format: 'tool' is required" ∧
    (process genC6 ioOk rs0 "hi" "console").result.response = none ∧
    Store.hist (process genC6 ioOk rs0 "hi" "console").state.store "console" = [] :=
  ⟨rfl, rfl, rfl, rfl, rfl⟩

/-- C6 (amended): a decoded object with **no** detected tool call (in
particular one whose `tool` key is missing) is handled as plain
conversational text — the response is returned as-is and a user/assistant
pair appended; an object whose `tool` field is present but falsy (e.g.
empty) instead produces a failed result with the `Invalid tool format`
message and leaves history unchanged. -/
theorem claim_C6 (gen : GenOracle) (io : ToolOracle) (rs : RouterState)
    (text0 uid response : String)
    (h1 : pyStrip text0 ≠ "")
    (h2 : pyStartsWith (pyStrip text0) "/" = false)
    (hgen : gen (pyStrip text0) (Store.hist rs.store uid) = Except.ok response) :
    (detectToolCall response = none →
      (process gen io rs text0 uid).result = ⟨true, some response, none, none⟩ ∧
      Store.hist (process gen io rs text0 uid).state.store uid =
        manageHistory (Store.hist rs.store uid ++
          [⟨"user", pyStrip text0⟩, ⟨"assistant", response⟩])) ∧
    (∀ fs, detectToolCall response = some fs →
      pyTruthy ((jGet fs "tool").getD JVal.jnull) = false →
      (process gen io rs text0 uid).result =
        ⟨false, none, some "Invalid tool format: 'tool' is required", none⟩ ∧
      Store.hist (process gen io rs text0 uid).state.store uid =
        Store.hist rs.store uid) := by
  rw [process_eq, if_neg h1, if_neg (by rw [h2]; exact Bool.false_ne_true)]
  constructor
  · intro hd
    have hconv : conv gen io rs (pyStrip text0) uid =
        plainReply rs.ai (creadStore rs.store uid)
          (Store.hist (creadStore rs.store uid) uid) (pyStrip text0) uid response := by
      unfold conv
      dsimp only
      rw [creadStore_hist, hgen]
      dsimp only
      rw [hd]
    rw [hconv]
    unfold plainReply
    refine ⟨rfl, ?_⟩
    dsimp only
    rw [hist_set_self, creadStore_hist]
  · intro fs hd htool
    have hconv : conv gen io rs (pyStrip text0) uid =
        toolBranch gen io rs.ai (creadStore rs.store uid)
          (Store.hist (creadStore rs.store uid) uid) (pyStrip text0) uid response fs := by
      unfold conv
      dsimp only
      rw [creadStore_hist, hgen]
      dsimp only
      rw [hd]
    rw [hconv]
    unfold toolBranch
    dsimp only
    rw [if_pos htool]
    exact ⟨rfl, creadStore_hist rs.store uid uid⟩

theorem claim_C6_witness :
    (detectToolCall "hello there" = none ∧
     detectToolCall respC6 = some [("tool", JVal.jstr "")] ∧
     pyTruthy ((jGet [("tool", JVal.jstr "")] "tool").getD JVal.jnull) = false) ∧
    ((process genHello ioOk rs0 "hi" "console").result =
        ⟨true, some "hello there", none, none⟩ ∧
      Store.hist (process genHello ioOk rs0 "hi" "console").state.store "console" =
        manageHistory (Store.hist rs0.store "console" ++
          [⟨"user", pyStrip "hi"⟩, ⟨"assistant", "hello there"⟩])) ∧
    ((process genC6 ioOk rs0 "hi" "console").result =
        ⟨false, none, some "Invalid tool format: 'tool' is required", none⟩ ∧
      Store.hist (process genC6 ioOk rs0 "hi" "console").state.store "console" =
        Store.hist rs0.store "console") :=
  ⟨⟨rfl, rfl, rfl⟩,
   (claim_C6 genHello ioOk rs0 "hi" "console" "hello there"
     (by decide) (by decide) rfl).1 rfl,
   (claim_C6 genC6 ioOk rs0 "hi" "console" respC6
     (by decide) (by decide) rfl).2 [("tool", JVal.jstr "")] rfl rfl⟩

/-! ## C7: round-trip extraction with and without surrounding prose -/

/-- C7 counterexample: the request `{"tool": "}"}` — a legal capability
request whose string payload contains a brace — is detected when it is the
entire response, but wrapping the very same serialized request in prose
yields no extraction at all, because the brace-depth counter closes a
candidate at the `}` inside the string literal. -/
theorem claim_C7_counterexample :
    dumpsV reqC7 = sC7 ∧
    detectToolCall sC7 = some [("tool", JVal.jstr "\x7d")] ∧
    detectToolCall ("Sure, let me check.\n" ++ sC7 ++ "\nDone.") = none :=
  ⟨rfl, rfl, rfl⟩

/-- C7 (amended): for a serialized request that forms one balanced brace
group (no braces inside its string payloads) and decodes to a dict with a
`tool` key, detection from the bare response and from the response wrapped
in brace-free prose (with at least one non-whitespace prose character)
agree: both yield exactly that request. -/
theorem claim_C7 (pre s post : String) (fs : List (String × JVal))
    (hbg : balancedGroup s.toList)
    (hp : jloads s = some (JVal.jobj fs))
    (ht : hasKey fs "tool" = true)
    (hpre : braceFree pre.toList = true)
    (hpost : braceFree post.toList = true)
    (hprose : ∃ x ∈ pre.toList ++ post.toList, pyWsChar x = false) :
    detectToolCall s = some fs ∧
    detectToolCall (pre ++ s ++ post) = some fs := by
  refine ⟨detect_of_group s fs hbg hp ht, ?_⟩
  have hcond := wrapped_cond_false pre s post hpre hpost hprose
  apply detect_of_extract hcond ?_ ht
  unfold extractJsonFromText
  rw [toList_append, toList_append, List.append_assoc,
    scan_braceFree_prefix _ _ _ hpre]
  exact scan_balancedGroup s.toList post.toList fs hbg hp ht

theorem claim_C7_witness :
    (balancedGroup sC7good.toList ∧
     jloads sC7good = some (JVal.jobj
       [("tool", JVal.jstr "read_file"), ("args", JVal.jobj [("path", JVal.jstr "x")])])) ∧
    (detectToolCall sC7good = some
       [("tool", JVal.jstr "read_file"), ("args", JVal.jobj [("path", JVal.jstr "x")])] ∧
     detectToolCall ("Sure, let me check.\n" ++ sC7good ++ "\nDone.") = some
       [("tool", JVal.jstr "read_file"), ("args", JVal.jobj [("path", JVal.jstr "x")])]) :=
  ⟨⟨by decide, rfl⟩,
   claim_C7 "Sure, let me check.\n" sC7good "\nDone."
     [("tool", JVal.jstr "read_file"), ("args", JVal.jobj [("path", JVal.jstr "x")])]
     (by decide) rfl (by decide) (by decide) (by decide) (by decide)⟩

/-! ## C8: the bash handler has no timeout -/

/-- C8 (code bug): `run_bash` invokes `subprocess.run` without any
`timeout` argument, so no wall-clock bound is enforced: a command of any
duration completes after its full duration, a `TimeoutExpired` outcome is
never produced, and in particular `sleep 10000` blocks for 10000 seconds
(far beyond the 30-second bound the spec requires) instead of failing with
a Timeout. -/
theorem claim_C8 (cmd : String) (beh : ProcBehavior) (n : Nat) :
    (runBashCall cmd).timeout = none ∧
    subprocessRun (runBashCall cmd) beh =
      RunOutcome.completed beh.returncode beh.stdout beh.stderr beh.duration ∧
    subprocessRun (runBashCall cmd) beh ≠ RunOutcome.timeoutExpired n ∧
    (runBash "sleep 10000" ⟨10000, 0, "", ""⟩).1 =
      RunOutcome.completed 0 "" "" 10000 ∧
    30 < 10000 := by
  refine ⟨rfl, rfl, ?_, rfl, by omega⟩
  intro h
  cases h

/-! ## C10: an unmatched closing brace before a request -/

/-- C10 counterexample: with an unmatched `}` in front, the enclosing
request is never extracted, but the nested `args` object **is** probed as a
candidate — and since here it carries its own `tool` field, a request *is*
extracted (the nested one), contradicting "no request is extracted". -/
theorem claim_C10_counterexample :
    c10text.toList.head? = some '}' ∧
    jloads (String.mk (c10text.toList.drop 1)) =
      some (JVal.jobj [("tool", JVal.jstr "a"),
        ("args", JVal.jobj [("tool", JVal.jstr "b")])]) ∧
    extractJsonFromText c10text = some (JVal.jobj [("tool", JVal.jstr "b")]) :=
  ⟨rfl, rfl, rfl⟩

/-- C10 (amended): an unmatched `}` (in a `{`-free prefix) before an
otherwise valid capability request **with no nested brace groups** drives
the depth counter negative, it never returns to zero at the request's
braces, no request is extracted, and the turn is handled as plain
conversational text.  (When the request has nested groups, those are probed
as candidates instead of the enclosing request — see the counterexample.) -/
theorem claim_C10 (pre : String) (inner : List Char) (fs : List (String × JVal))
    (hpre1 : '{' ∉ pre.toList)
    (hpre2 : '}' ∈ pre.toList)
    (hbf : braceFree inner = true)
    (hp : jloads (String.mk ('{' :: (inner ++ ['}']))) = some (JVal.jobj fs))
    (ht : hasKey fs "tool" = true) :
    detectToolCall (String.mk ('{' :: (inner ++ ['}']))) = some fs ∧
    extractJsonFromText (pre ++ String.mk ('{' :: (inner ++ ['}']))) = none ∧
    detectToolCall (pre ++ String.mk ('{' :: (inner ++ ['}']))) = none ∧
    (∀ (gen : GenOracle) (io : ToolOracle) (rs : RouterState) (text0 uid : String),
      pyStrip text0 ≠ "" → pyStartsWith (pyStrip text0) "/" = false →
      gen (pyStrip text0) (Store.hist rs.store uid) =
        Except.ok (pre ++ String.mk ('{' :: (inner ++ ['}']))) →
      (process gen io rs text0 uid).result =
        ⟨true, some (pre ++ String.mk ('{' :: (inner ++ ['}']))), none, none⟩) := by
  have hbg : balancedGroup (String.mk ('{' :: (inner ++ ['}']))).toList :=
    balancedGroup_flat inner hbf
  have hdet1 : detectToolCall (String.mk ('{' :: (inner ++ ['}']))) = some fs :=
    detect_of_group _ fs hbg hp ht
  have hext : extractJsonFromText (pre ++ String.mk ('{' :: (inner ++ ['}']))) = none := by
    unfold extractJsonFromText
    have hsplit : (pre ++ String.mk ('{' :: (inner ++ ['}']))).toList
        = pre.toList ++ ('{' :: (inner ++ ['}'])) := String.data_append pre _
    rw [hsplit, scan_noOpen_prefix pre.toList _ 0 hpre1]
    have hneg : pcount pre.toList ≤ -1 := pcount_noOpen_neg hpre1 hpre2
    have hc : (0 : Int) + pcount pre.toList ≠ 0 := by omega
    have h0 : scanJson (('{' :: (inner ++ ['}'])) ++ [])
        (0 + pcount pre.toList) none =
        scanJson [] (0 + pcount pre.toList) none :=
      scan_flatGroup inner [] _ hbf hc
    rw [List.append_nil] at h0
    rw [h0]
    rfl
  have hcond : (pyStartsWith (pyStrip (pre ++ String.mk ('{' :: (inner ++ ['}'])))) "\x7b" &&
      pyEndsWith (pyStrip (pre ++ String.mk ('{' :: (inner ++ ['}'])))) "\x7d") = false := by
    obtain ⟨w, f, t, hl, hw, hf⟩ :=
      exists_first_false (p := pyWsChar) hpre2 (by decide)
    have hfmem : f ∈ pre.toList := by
      rw [hl]
      exact List.mem_append_right _ (List.mem_cons_self _ _)
    have hfne : f ≠ '{' := fun he => hpre1 (he ▸ hfmem)
    have hwhole : (pre ++ String.mk ('{' :: (inner ++ ['}']))).toList =
        w ++ f :: (t ++ ('{' :: (inner ++ ['}']))) := by
      have hsplit2 : (pre ++ String.mk ('{' :: (inner ++ ['}']))).toList
          = pre.toList ++ ('{' :: (inner ++ ['}'])) := String.data_append pre _
      rw [hsplit2, hl]
      simp
    obtain ⟨m, hm⟩ := pyStripL_decomp_head
      (t := t ++ ('{' :: (inner ++ ['}']))) hw hf
    have hstart : pyStartsWith (pyStrip (pre ++ String.mk ('{' :: (inner ++ ['}'])))) "\x7b" =
        ('{' == f) :=
      pyStartsWith_strip_brace (by rw [hwhole]; exact hm)
    have hbeq : ('{' == f) = false := by
      cases hE : ('{' == f) with
      | false => rfl
      | true => exact absurd (eq_of_beq hE).symm hfne
    rw [hstart, hbeq, Bool.false_and]
  have hdet2 : detectToolCall (pre ++ String.mk ('{' :: (inner ++ ['}']))) = none := by
    unfold detectToolCall
    rw [rawToolCall_eq_extract hcond, hext]
  refine ⟨hdet1, hext, hdet2, ?_⟩
  intro gen io rs text0 uid h1 h2 hgen
  rw [process_eq, if_neg h1, if_neg (by rw [h2]; exact Bool.false_ne_true)]
  have hconv : conv gen io rs (pyStrip text0) uid =
      plainReply rs.ai (creadStore rs.store uid)
        (Store.hist (creadStore rs.store uid) uid) (pyStrip text0) uid
        (pre ++ String.mk ('{' :: (inner ++ ['}']))) := by
    unfold conv
    dsimp only
    rw [creadStore_hist, hgen]
    dsimp only
    rw [hdet2]
  rw [hconv]
  rfl

theorem claim_C10_witness :
    ('{' ∉ "Oops\x7d ".toList ∧ '}' ∈ "Oops\x7d ".toList ∧
     braceFree c10inner = true ∧
     jloads (String.mk ('{' :: (c10inner ++ ['}']))) =
       some (JVal.jobj [("tool", JVal.jstr "a")])) ∧
    (detectToolCall (String.mk ('{' :: (c10inner ++ ['}']))) =
       some [("tool", JVal.jstr "a")] ∧
     extractJsonFromText ("Oops\x7d " ++ String.mk ('{' :: (c10inner ++ ['}']))) = none ∧
     detectToolCall ("Oops\x7d " ++ String.mk ('{' :: (c10inner ++ ['}']))) = none ∧
     (process genC10 ioOk rs0 "hi" "console").result =
       ⟨true, some ("Oops\x7d " ++ String.mk ('{' :: (c10inner ++ ['}']))), none, none⟩) := by
  have h := claim_C10 "Oops\x7d " c10inner [("tool", JVal.jstr "a")]
    (by decide) (by decide) (by decide) rfl rfl
  refine ⟨⟨by decide, by decide, by decide, rfl⟩, h.1, h.2.1, h.2.2.1, ?_⟩
  exact h.2.2.2 genC10 ioOk rs0 "hi" "console" (by decide) (by decide) rfl
end AIVA